import Mathlib

/-!
# GoAWK lexer and CLI: a shallow embedding

This file embeds the GoAWK lexer (`lexer/lexer.go`, the version exposing
`Scan`, `ScanRegex`, `HadSpace`) and the exit-code logic of the CLI `main`
into Lean, and proves the specification claims about them.

Bytes are modelled as `Nat`, runes as `Int` (the lexer uses `-1` for
end-of-input, exactly as the Go code does).  Loops of the Go code become
fuelled recursive functions returning `Option`; `none` means the fuel ran
out, and every claim is stated for all fuels, with concrete witnesses
evaluated at explicit fuels.
-/

namespace GoAWK

/-- Modelled from the spec: the closed token enumeration of the lexer
(`token.go` is not among the given sources; the spec, section 3, lists the
token set).  The Go zero value of `Token` is taken to be `ILLEGAL`, the
first constant of the enumeration. -/
inductive Tok where
  | ILLEGAL | EOF | NEWLINE
  | ADD | ADD_ASSIGN | AND | APPEND | ASSIGN | COLON | COMMA | DECR
  | DIV | DIV_ASSIGN | DOLLAR | EQUALS | GTE | GREATER | INCR
  | LBRACE | LBRACKET | LESS | LPAREN | LTE | MATCH | MOD | MOD_ASSIGN
  | MUL | MUL_ASSIGN | NOT | NOT_EQUALS | NOT_MATCH | OR | PIPE
  | POW | POW_ASSIGN | QUESTION | RBRACE | RBRACKET | RPAREN
  | SEMICOLON | SUB | SUB_ASSIGN
  | NAME | NUMBER | STRING | REGEX
  | BEGIN | BREAK | CONTINUE | DELETE | DO | ELSE | END | EXIT | FOR
  | FUNCTION | GETLINE | IF | IN | NEXT | PRINT | PRINTF | RETURN | WHILE
  | F_ATAN2 | F_CLOSE | F_COS | F_EXP | F_FFLUSH | F_GSUB | F_INDEX
  | F_INT | F_LENGTH | F_LOG | F_MATCH | F_RAND | F_SIN | F_SPLIT
  | F_SPRINTF | F_SQRT | F_SRAND | F_SUB | F_SUBSTR | F_SYSTEM
  | F_TOLOWER | F_TOUPPER
  deriving DecidableEq, Repr

/-- `Position` stores the source line and column where a token starts
(Go `int` fields are modelled as `Int`). -/
structure Position where
  Line : Int
  Column : Int
  deriving DecidableEq, Repr

/-- The lexer state: `lexer.go`'s `Lexer` struct. -/
structure Lexer where
  src : List Nat
  offset : Nat
  ch : Int
  errorMsg : String
  pos : Position
  nextPos : Position
  hadSpace : Bool
  lastTok : Tok
  deriving DecidableEq, Repr

/-- The triple returned by `Scan`/`ScanRegex`: position, token, string value. -/
structure ScanRes where
  pos : Position
  tok : Tok
  val : String
  deriving DecidableEq, Repr

/-- Go's `utf8.DecodeRune` on a byte slice: returns the decoded rune and its
size in bytes.  On empty input it returns `(RuneError, 0)`; on an invalid
encoding, `(RuneError, 1)`.  `RuneError` is `0xFFFD`. -/
def decodeRune (bs : List Nat) : Int × Nat :=
  match bs with
  | [] => (0xFFFD, 0)
  | b0 :: rest =>
    if b0 < 0x80 then ((b0 : Int), 1)
    else if b0 < 0xC2 then (0xFFFD, 1)
    else if b0 ≤ 0xDF then
      match rest with
      | b1 :: _ =>
        if 0x80 ≤ b1 ∧ b1 ≤ 0xBF then
          (((b0 - 0xC0) * 0x40 + (b1 - 0x80) : Nat), 2)
        else (0xFFFD, 1)
      | [] => (0xFFFD, 1)
    else if b0 ≤ 0xEF then
      match rest with
      | b1 :: b2 :: _ =>
        if (if b0 = 0xE0 then 0xA0 ≤ b1 ∧ b1 ≤ 0xBF
            else if b0 = 0xED then 0x80 ≤ b1 ∧ b1 ≤ 0x9F
            else 0x80 ≤ b1 ∧ b1 ≤ 0xBF) ∧ 0x80 ≤ b2 ∧ b2 ≤ 0xBF then
          (((b0 - 0xE0) * 0x1000 + (b1 - 0x80) * 0x40 + (b2 - 0x80) : Nat), 3)
        else (0xFFFD, 1)
      | _ => (0xFFFD, 1)
    else if b0 ≤ 0xF4 then
      match rest with
      | b1 :: b2 :: b3 :: _ =>
        if (if b0 = 0xF0 then 0x90 ≤ b1 ∧ b1 ≤ 0xBF
            else if b0 = 0xF4 then 0x80 ≤ b1 ∧ b1 ≤ 0x8F
            else 0x80 ≤ b1 ∧ b1 ≤ 0xBF) ∧
           (0x80 ≤ b2 ∧ b2 ≤ 0xBF) ∧ (0x80 ≤ b3 ∧ b3 ≤ 0xBF) then
          (((b0 - 0xF0) * 0x40000 + (b1 - 0x80) * 0x1000 +
            (b2 - 0x80) * 0x40 + (b3 - 0x80) : Nat), 4)
        else (0xFFFD, 1)
      | _ => (0xFFFD, 1)
    else (0xFFFD, 1)

/-- One hexadecimal digit, lowercase. -/
def hexDigit (n : Nat) : Char :=
  if n < 10 then Char.ofNat (48 + n) else Char.ofNat (87 + n)

/-- `fmt.Sprintf("invalid UTF-8 byte 0x%02x", b)`. -/
def invalidUTF8Msg (b : Nat) : String :=
  "invalid UTF-8 byte 0x" ++ String.mk [hexDigit (b / 16 % 16), hexDigit (b % 16)]

/-- Modelled from the Go `fmt` package: `%q` formatting of a rune as used in
lexer error messages (approximate; no claim depends on the exact quoting). -/
def goQuoteRune (c : Int) : String :=
  if 32 ≤ c ∧ c ≤ 126 then String.mk [Char.ofNat 39, Char.ofNat c.toNat, Char.ofNat 39]
  else "'\\u" ++ String.mk (Nat.toDigits 16 c.toNat) ++ "'"

/-- Convert a list of runes to a Go string (`string(runes)`); all runes that
actually reach a returned token value are valid code points. -/
def runesToString (rs : List Int) : String :=
  String.mk (rs.map (fun r => Char.ofNat r.toNat))

/-- The lexer's `next`: decode the rune at the current offset into `ch`,
advancing `pos`/`nextPos`/`offset`.  At end of input `ch` becomes `-1`;
on an invalid UTF-8 byte `ch` becomes `-1` and `errorMsg` is set, and the
offset does not advance. -/
def next (l : Lexer) : Lexer :=
  let l1 := { l with pos := l.nextPos }
  let d := decodeRune (l1.src.drop l1.offset)
  if d.2 = 0 then { l1 with ch := -1 }
  else if d.1 = 0xFFFD then
    { l1 with ch := -1,
              errorMsg := invalidUTF8Msg ((l1.src.drop l1.offset).headD 0) }
  else
    { l1 with ch := d.1, offset := l1.offset + d.2,
              nextPos :=
                if d.1 = 10 then ⟨l1.nextPos.Line + 1, 1⟩
                else ⟨l1.nextPos.Line, l1.nextPos.Column + 1⟩ }

/-- `NewLexer`: initial position (1,1), then one `next`.  The Go zero value
of the struct supplies the remaining fields (`lastTok` is `ILLEGAL`, the
zero token). -/
def newLexer (src : List Nat) : Lexer :=
  next { src := src, offset := 0, ch := 0, errorMsg := "",
         pos := ⟨0, 0⟩, nextPos := ⟨1, 1⟩, hadSpace := false,
         lastTok := Tok.ILLEGAL }

/-- `isNameStart`: `_`, `a`..`z`, `A`..`Z`. -/
def isNameStart (ch : Int) : Bool :=
  decide (ch = 95 ∨ (97 ≤ ch ∧ ch ≤ 122) ∨ (65 ≤ ch ∧ ch ≤ 90))

/-- A decimal digit rune. -/
def isDigitCh (ch : Int) : Bool :=
  decide (48 ≤ ch ∧ ch ≤ 57)

/-- Modelled from the spec: the keyword table (`keywordTokens` lives in
`token.go`, not among the given sources; the spec, section 3, lists the
keywords). -/
def keywordList : List (String × Tok) :=
  [("BEGIN", .BEGIN), ("END", .END), ("atan2", .F_ATAN2), ("break", .BREAK),
   ("close", .F_CLOSE), ("continue", .CONTINUE), ("cos", .F_COS),
   ("delete", .DELETE), ("do", .DO), ("else", .ELSE), ("exit", .EXIT),
   ("exp", .F_EXP), ("fflush", .F_FFLUSH), ("for", .FOR),
   ("function", .FUNCTION), ("getline", .GETLINE), ("gsub", .F_GSUB),
   ("if", .IF), ("in", .IN), ("index", .F_INDEX), ("int", .F_INT),
   ("length", .F_LENGTH), ("log", .F_LOG), ("match", .F_MATCH),
   ("next", .NEXT), ("print", .PRINT), ("printf", .PRINTF),
   ("rand", .F_RAND), ("return", .RETURN), ("sin", .F_SIN),
   ("split", .F_SPLIT), ("sprintf", .F_SPRINTF), ("sqrt", .F_SQRT),
   ("srand", .F_SRAND), ("sub", .F_SUB), ("substr", .F_SUBSTR),
   ("system", .F_SYSTEM), ("tolower", .F_TOLOWER), ("toupper", .F_TOUPPER),
   ("while", .WHILE)]

/-- Keyword lookup (`keywordTokens[name]`). -/
def keywordTokens (s : String) : Option Tok :=
  (keywordList.find? (fun p => p.1 = s)).map (fun p => p.2)

/-- Modelled from the spec: `Token.String()` names, used only inside the
`ScanRegex` error message for an unexpected preceding token. -/
def tokName (t : Tok) : String :=
  match t with
  | .ILLEGAL => "<illegal>" | .EOF => "EOF" | .NEWLINE => "<newline>"
  | .ADD => "+" | .ADD_ASSIGN => "+=" | .AND => "&&" | .APPEND => ">>"
  | .ASSIGN => "=" | .COLON => ":" | .COMMA => "," | .DECR => "--"
  | .DIV => "/" | .DIV_ASSIGN => "/=" | .DOLLAR => "$" | .EQUALS => "=="
  | .GTE => ">=" | .GREATER => ">" | .INCR => "++" | .LBRACE => "\x7b"
  | .LBRACKET => "[" | .LESS => "<" | .LPAREN => "(" | .LTE => "<="
  | .MATCH => "~" | .MOD => "%" | .MOD_ASSIGN => "%=" | .MUL => "*"
  | .MUL_ASSIGN => "*=" | .NOT => "!" | .NOT_EQUALS => "!="
  | .NOT_MATCH => "!~" | .OR => "||" | .PIPE => "|" | .POW => "^"
  | .POW_ASSIGN => "^=" | .QUESTION => "?" | .RBRACE => "\x7d"
  | .RBRACKET => "]" | .RPAREN => ")" | .SEMICOLON => ";" | .SUB => "-"
  | .SUB_ASSIGN => "-=" | .NAME => "<name>" | .NUMBER => "<number>"
  | .STRING => "<string>" | .REGEX => "<regex>" | .BEGIN => "BEGIN"
  | .BREAK => "break" | .CONTINUE => "continue" | .DELETE => "delete"
  | .DO => "do" | .ELSE => "else" | .END => "END" | .EXIT => "exit"
  | .FOR => "for" | .FUNCTION => "function" | .GETLINE => "getline"
  | .IF => "if" | .IN => "in" | .NEXT => "next" | .PRINT => "print"
  | .PRINTF => "printf" | .RETURN => "return" | .WHILE => "while"
  | .F_ATAN2 => "atan2" | .F_CLOSE => "close" | .F_COS => "cos"
  | .F_EXP => "exp" | .F_FFLUSH => "fflush" | .F_GSUB => "gsub"
  | .F_INDEX => "index" | .F_INT => "int" | .F_LENGTH => "length"
  | .F_LOG => "log" | .F_MATCH => "match" | .F_RAND => "rand"
  | .F_SIN => "sin" | .F_SPLIT => "split" | .F_SPRINTF => "sprintf"
  | .F_SQRT => "sqrt" | .F_SRAND => "srand" | .F_SUB => "sub"
  | .F_SUBSTR => "substr" | .F_SYSTEM => "system" | .F_TOLOWER => "tolower"
  | .F_TOUPPER => "toupper"

/-- `choice`: if the lookahead is `c`, consume it and yield `two`, else
yield `one`. -/
def choice (l : Lexer) (c : Int) (one two : Tok) : Lexer × Tok :=
  if l.ch = c then (next l, two) else (l, one)

/-- Whitespace characters of the skip loop: space, tab, carriage return,
backslash. -/
def wsChar (c : Int) : Prop := c = 32 ∨ c = 9 ∨ c = 13 ∨ c = 92

instance (c : Int) : Decidable (wsChar c) := by unfold wsChar; infer_instance

/-- The whitespace/line-continuation loop at the top of `scan`:
`for l.ch == ' ' || l.ch == '\t' || l.ch == '\r' || l.ch == '\\'` with the
early `ILLEGAL` return for a backslash not followed by a newline.
`Sum.inl` continues into the rest of `scan`; `Sum.inr` is the early return. -/
def skipWS (fuel : Nat) (l : Lexer) : Option (Lexer ⊕ (Lexer × ScanRes)) :=
  if wsChar l.ch then
    match fuel with
    | 0 => none
    | fuel + 1 =>
      let l := { l with hadSpace := true }
      if l.ch = 92 then
        let l := next l
        let l := if l.ch = 13 then next l else l
        if l.ch ≠ 10 then
          some (Sum.inr (l, ⟨l.pos, Tok.ILLEGAL,
            "expected \\n after \\ line continuation"⟩))
        else skipWS fuel (next l)
      else skipWS fuel (next l)
  else some (Sum.inl l)

/-- The comment-skipping loop: `for l.ch != '\n' && l.ch >= 0`. -/
def skipComment (fuel : Nat) (l : Lexer) : Option Lexer :=
  if l.ch ≠ 10 ∧ 0 ≤ l.ch then
    match fuel with
    | 0 => none
    | fuel + 1 => skipComment fuel (next l)
  else some l

/-- The name loop: consume name characters and digits, returning the
consumed runes. -/
def scanNameLoop (fuel : Nat) (l : Lexer) : Option (List Int × Lexer) :=
  if isNameStart l.ch ∨ isDigitCh l.ch then
    match fuel with
    | 0 => none
    | fuel + 1 =>
      match scanNameLoop fuel (next l) with
      | none => none
      | some (rs, l') => some (l.ch :: rs, l')
  else some ([], l)

/-- A digit run: `for l.ch >= '0' && l.ch <= '9'`, returning the consumed
digits (this loop occurs three times inside the number case). -/
def scanDigits (fuel : Nat) (l : Lexer) : Option (List Int × Lexer) :=
  if isDigitCh l.ch then
    match fuel with
    | 0 => none
    | fuel + 1 =>
      match scanDigits fuel (next l) with
      | none => none
      | some (rs, l') => some (l.ch :: rs, l')
  else some ([], l)

/-- The exponent part at the end of the number case: an optional `e`/`E`,
optional `+`/`-` sign, and a digit run, then the `NUMBER` token at `pos`. -/
def scanNumberExp (fuel : Nat) (pos : Position) (runes : List Int) (l : Lexer) :
    Option (Lexer × ScanRes) :=
  if l.ch = 101 ∨ l.ch = 69 then
    let runes1 := runes ++ [l.ch]
    let l1 := next l
    let p := if l1.ch = 43 ∨ l1.ch = 45 then (runes1 ++ [l1.ch], next l1)
             else (runes1, l1)
    match scanDigits fuel p.2 with
    | none => none
    | some (ds3, l2) => some (l2, ⟨pos, Tok.NUMBER, runesToString (p.1 ++ ds3)⟩)
  else some (l, ⟨pos, Tok.NUMBER, runesToString runes⟩)

/-- The second half of the number case: the (fraction) digit run shared by
both entry paths, the `expected digits` error when no digit was seen
(`gotDigit1` records whether the first character already was a digit), and
the exponent. -/
def scanNumberTail (fuel : Nat) (pos : Position) (gotDigit1 : Bool)
    (runes : List Int) (l : Lexer) : Option (Lexer × ScanRes) :=
  match scanDigits fuel l with
  | none => none
  | some (ds2, l1) =>
    if ¬ (gotDigit1 = true ∨ ds2 ≠ []) then
      some (l1, ⟨l1.pos, Tok.ILLEGAL, "expected digits"⟩)
    else scanNumberExp fuel pos (runes ++ ds2) l1

/-- The number case of the `scan` switch (first char `ch` is a digit or
`'.'`): when `ch` is a digit, an integer digit run and an optional `'.'`;
then the shared tail. -/
def scanNumber (fuel : Nat) (pos : Position) (ch : Int) (l : Lexer) :
    Option (Lexer × ScanRes) :=
  if ch ≠ 46 then
    match scanDigits fuel l with
    | none => none
    | some (ds1, l1) =>
      if l1.ch = 46 then scanNumberTail fuel pos true (ch :: ds1 ++ [46]) (next l1)
      else scanNumberTail fuel pos true (ch :: ds1) l1
  else scanNumberTail fuel pos false [ch] l

/-- The string-literal loop of `scan` (shared by the `'"'` and `'\''`
cases, with `quote` the opening quote character): escape translation for
`\t`, `\r`, `\n`, raw character for any other escape, errors for
end-of-input and for a bare carriage return or newline; on the closing
quote, consume it and return the `STRING` token at `pos`. -/
def scanStr (quote : Int) (fuel : Nat) (runes : List Int) (l : Lexer)
    (pos : Position) : Option (Lexer × ScanRes) :=
  if l.ch ≠ quote then
    let c := l.ch
    if c < 0 then some (l, ⟨l.pos, Tok.ILLEGAL, "didn't find end quote in string"⟩)
    else if c = 13 ∨ c = 10 then
      some (l, ⟨l.pos, Tok.ILLEGAL, "can't have newline in string"⟩)
    else
      match fuel with
      | 0 => none
      | fuel + 1 =>
        if c = 92 then
          let l := next l
          let c := if l.ch = 116 then 9
                   else if l.ch = 114 then 13
                   else if l.ch = 110 then 10
                   else l.ch
          scanStr quote fuel (runes ++ [c]) (next l) pos
        else scanStr quote fuel (runes ++ [c]) (next l) pos
  else some (next l, ⟨pos, Tok.STRING, runesToString runes⟩)

/-- The regex loop of `scanRegex`: consume until an unescaped `/`; `\/`
contributes `/`, any other `\x` contributes `\` and `x`; errors for
end-of-input and for a bare carriage return or newline. -/
def regexLoop (fuel : Nat) (runes : List Int) (l : Lexer) (pos : Position) :
    Option (Lexer × ScanRes) :=
  if l.ch ≠ 47 then
    let c := l.ch
    if c < 0 then some (l, ⟨l.pos, Tok.ILLEGAL, "didn't find end slash in regex"⟩)
    else if c = 13 ∨ c = 10 then
      some (l, ⟨l.pos, Tok.ILLEGAL, "can't have newline in regex"⟩)
    else
      match fuel with
      | 0 => none
      | fuel + 1 =>
        if c = 92 then
          let l := next l
          let runes := if l.ch ≠ 47 then runes ++ [92] else runes
          regexLoop fuel (runes ++ [l.ch]) (next l) pos
        else regexLoop fuel (runes ++ [c]) (next l) pos
  else some (next l, ⟨pos, Tok.REGEX, runesToString runes⟩)

/-- The shared `return pos, tok, val` at the end of `scan` for the cases
whose token value is empty. -/
def retTok (pos : Position) (l : Lexer) (tok : Tok) : Option (Lexer × ScanRes) :=
  some (l, ⟨pos, tok, ""⟩)

/-- The switch statement of `scan`, on the consumed character `ch`, with
`pos` the position of `ch` and `l` the state after consuming it. -/
def scanSwitch (fuel : Nat) (pos : Position) (ch : Int) (l : Lexer) :
    Option (Lexer × ScanRes) :=
  if ch = 10 then retTok pos l .NEWLINE
  else if ch = 58 then retTok pos l .COLON
  else if ch = 44 then retTok pos l .COMMA
  else if ch = 47 then
    let p := choice l 61 .DIV .DIV_ASSIGN
    retTok pos p.1 p.2
  else if ch = 123 then retTok pos l .LBRACE
  else if ch = 91 then retTok pos l .LBRACKET
  else if ch = 40 then retTok pos l .LPAREN
  else if ch = 45 then
    if l.ch = 45 then retTok pos (next l) .DECR
    else if l.ch = 61 then retTok pos (next l) .SUB_ASSIGN
    else retTok pos l .SUB
  else if ch = 37 then
    let p := choice l 61 .MOD .MOD_ASSIGN
    retTok pos p.1 p.2
  else if ch = 43 then
    if l.ch = 43 then retTok pos (next l) .INCR
    else if l.ch = 61 then retTok pos (next l) .ADD_ASSIGN
    else retTok pos l .ADD
  else if ch = 125 then retTok pos l .RBRACE
  else if ch = 93 then retTok pos l .RBRACKET
  else if ch = 41 then retTok pos l .RPAREN
  else if ch = 42 then
    if l.ch = 42 then
      let p := choice (next l) 61 .POW .POW_ASSIGN
      retTok pos p.1 p.2
    else if l.ch = 61 then retTok pos (next l) .MUL_ASSIGN
    else retTok pos l .MUL
  else if ch = 61 then
    let p := choice l 61 .ASSIGN .EQUALS
    retTok pos p.1 p.2
  else if ch = 94 then
    let p := choice l 61 .POW .POW_ASSIGN
    retTok pos p.1 p.2
  else if ch = 33 then
    if l.ch = 61 then retTok pos (next l) .NOT_EQUALS
    else if l.ch = 126 then retTok pos (next l) .NOT_MATCH
    else retTok pos l .NOT
  else if ch = 60 then
    let p := choice l 61 .LESS .LTE
    retTok pos p.1 p.2
  else if ch = 62 then
    if l.ch = 61 then retTok pos (next l) .GTE
    else if l.ch = 62 then retTok pos (next l) .APPEND
    else retTok pos l .GREATER
  else if ch = 126 then retTok pos l .MATCH
  else if ch = 63 then retTok pos l .QUESTION
  else if ch = 59 then retTok pos l .SEMICOLON
  else if ch = 36 then retTok pos l .DOLLAR
  else if ch = 38 then
    let p := choice l 38 .ILLEGAL .AND
    if p.2 = .ILLEGAL then
      some (p.1, ⟨p.1.pos, Tok.ILLEGAL,
        "unexpected " ++ goQuoteRune p.1.ch ++ " after '&'"⟩)
    else retTok pos p.1 p.2
  else if ch = 124 then
    let p := choice l 124 .PIPE .OR
    retTok pos p.1 p.2
  else if isDigitCh ch ∨ ch = 46 then scanNumber fuel pos ch l
  else if ch = 34 ∨ ch = 39 then scanStr ch fuel [] l pos
  else some (l, ⟨pos, Tok.ILLEGAL, "unexpected " ++ goQuoteRune ch⟩)

/-- The part of `scan` after whitespace and comment skipping: handle end of
input (`ILLEGAL` if an error is pending, else `EOF`), then scan a
name/keyword or dispatch on the first character. -/
def scanCore (fuel : Nat) (l : Lexer) : Option (Lexer × ScanRes) :=
  if l.ch < 0 then
    if l.errorMsg ≠ "" then some (l, ⟨l.pos, Tok.ILLEGAL, l.errorMsg⟩)
    else some (l, ⟨l.pos, Tok.EOF, ""⟩)
  else
    let pos := l.pos
    let ch := l.ch
    let l2 := next l
    if isNameStart ch then
      match scanNameLoop fuel l2 with
      | none => none
      | some (rs, l3) =>
        let name := runesToString (ch :: rs)
        match keywordTokens name with
        | some tok => some (l3, ⟨pos, tok, ""⟩)
        | none => some (l3, ⟨pos, Tok.NAME, name⟩)
    else scanSwitch fuel pos ch l2

/-- The part of `scan` after the whitespace loop: the `#` comment skip,
then the core. -/
def scanAfterWS (fuel : Nat) (l : Lexer) : Option (Lexer × ScanRes) :=
  match (if l.ch = 35 then skipComment fuel (next l) else some l) with
  | none => none
  | some l => scanCore fuel l

/-- The lexer's `scan`: skip whitespace (resetting `hadSpace` first), then
comments and the core. -/
def scanF (fuel : Nat) (l : Lexer) : Option (Lexer × ScanRes) :=
  match skipWS fuel { l with hadSpace := false } with
  | none => none
  | some (Sum.inr r) => some r
  | some (Sum.inl l) => scanAfterWS fuel l

/-- `Scan` (fuelled): `scan` plus recording the scanned token in `lastTok`. -/
def ScanF (fuel : Nat) (l : Lexer) : Option (Lexer × ScanRes) :=
  match scanF fuel l with
  | none => none
  | some (l', r) => some ({ l' with lastTok := r.tok }, r)

/-- The lexer's `scanRegex`: requires the previous token to be `DIV` or
`DIV_ASSIGN`, rewinds the start column accordingly (starting the value with
`=` after `DIV_ASSIGN`), then runs the regex loop. -/
def scanRegexF (fuel : Nat) (l : Lexer) : Option (Lexer × ScanRes) :=
  if l.lastTok = Tok.DIV then
    regexLoop fuel [] l ⟨l.pos.Line, l.pos.Column - 1⟩
  else if l.lastTok = Tok.DIV_ASSIGN then
    regexLoop fuel [61] l ⟨l.pos.Line, l.pos.Column - 2⟩
  else
    some (l, ⟨l.pos, Tok.ILLEGAL,
      "unexpected " ++ tokName l.lastTok ++ " preceding regex"⟩)

/-- `ScanRegex` (fuelled): `scanRegex` plus recording the token in `lastTok`. -/
def ScanRegexF (fuel : Nat) (l : Lexer) : Option (Lexer × ScanRes) :=
  match scanRegexF fuel l with
  | none => none
  | some (l', r) => some ({ l' with lastTok := r.tok }, r)

/-- `HadSpace`. -/
def HadSpace (l : Lexer) : Bool := l.hadSpace

/-- `Scan` with a canonical fuel that suffices for the whole input. -/
def Scan (l : Lexer) : Option (Lexer × ScanRes) := ScanF (l.src.length + 2) l

/-- `ScanRegex` with a canonical fuel that suffices for the whole input. -/
def ScanRegex (l : Lexer) : Option (Lexer × ScanRes) := ScanRegexF (l.src.length + 2) l

/-! ## The CLI front end (`goawk.go`, shown as `part_000`) -/

/-- The exit code produced by `errorExit`: it prints the message to standard
error and calls `os.Exit(1)`. -/
def errorExitCode : Nat := 1

/-- The exit status of the CLI `main`, translated from its control flow.
The results of the external calls are abstracted as parameters:
`hasProgFiles` is `len(progFiles) > 0`; `srcReadOk` is whether reading the
`-f` program files succeeded; `hasArgs` is `len(args) >= 1`;
`parseOk` is whether `parser.ParseProgram` succeeded; `varsOk` is whether
every `-v` flag has the `name=value` form; `execOk` is whether `p.Exec`
returned no error; and `exitStatus` is `p.ExitStatus()` — per the spec the
interpreter's numeric exit status, which is the argument of the AWK `exit`
statement (0 if none).  Every failure path goes through `errorExit`
(exit status 1); on success `main` calls `os.Exit(p.ExitStatus())`.
(The profiling flags `-cpuprofile`/`-memprofile` are not modelled.) -/
def mainExitCode (hasProgFiles srcReadOk hasArgs parseOk varsOk execOk : Bool)
    (exitStatus : Nat) : Nat :=
  if hasProgFiles ∧ ¬ srcReadOk then errorExitCode
  else if ¬ hasProgFiles ∧ ¬ hasArgs then errorExitCode
  else if ¬ parseOk then errorExitCode
  else if ¬ varsOk then errorExitCode
  else if ¬ execOk then errorExitCode
  else exitStatus

/-! ## Validity of a UTF-8 byte sequence -/

/-- Fuelled check that a byte list decodes without hitting `RuneError`
(each step consumes at least one byte, so `bs.length` fuel suffices). -/
def utf8ValidAux : Nat → List Nat → Bool
  | _, [] => true
  | 0, _ :: _ => false
  | fuel + 1, b :: rest =>
    let d := decodeRune (b :: rest)
    if d.1 = 0xFFFD then false
    else utf8ValidAux fuel ((b :: rest).drop d.2)

/-- A byte list is lexer-valid UTF-8 when scanning it rune by rune never
produces `RuneError`; an input containing an invalid UTF-8 byte is not
valid. -/
def utf8ValidList (bs : List Nat) : Bool := utf8ValidAux bs.length bs

/-! ## Invariants and evolution of the lexer state -/

/-- A 1-based position. -/
def PosOK (p : Position) : Prop := 1 ≤ p.Line ∧ 1 ≤ p.Column

/-- The state invariant maintained by `next`: both positions are 1-based;
when a character is loaded, `nextPos` is directly after `pos`; at
end-of-input or error, `nextPos` equals `pos`; and `ch` can only be
negative at true end-of-input or with a pending error message. -/
def StateInv (l : Lexer) : Prop :=
  PosOK l.pos ∧ PosOK l.nextPos ∧
  (0 ≤ l.ch →
    l.nextPos = (if l.ch = 10 then ⟨l.pos.Line + 1, 1⟩
                 else ⟨l.pos.Line, l.pos.Column + 1⟩)) ∧
  (l.ch < 0 → l.nextPos = l.pos) ∧
  (l.ch < 0 → l.errorMsg ≠ "" ∨ l.src.drop l.offset = [])

/-- The lexer has either an invalid remainder of input or an error already
recorded. -/
def BadUTF (l : Lexer) : Prop :=
  utf8ValidList (l.src.drop l.offset) = false ∨ l.errorMsg ≠ ""

/-- `l'` arises from `l` by zero or more `next` steps. -/
inductive NextEv : Lexer → Lexer → Prop
  | refl (l : Lexer) : NextEv l l
  | step {l l' : Lexer} (h : NextEv l l') : NextEv l (next l')

/-- All runes in the list are decimal digits. -/
def digitsOnly (rs : List Int) : Prop := ∀ c ∈ rs, 48 ≤ c ∧ c ≤ 57

/-- The shape of the exponent suffix of a `NUMBER` token: empty, or
`e`/`E`, an optional `+`/`-` sign, and digits. -/
def expShape (e : List Int) : Prop :=
  e = [] ∨ ∃ ec s ed, e = ec :: (s ++ ed) ∧ (ec = 101 ∨ ec = 69) ∧
    (s = [] ∨ s = [43] ∨ s = [45]) ∧ digitsOnly ed

/-- The shape of a `NUMBER` token's text: optional digits, an optional `.`
with an optional run of fraction digits, an optional `e`/`E` exponent with
an optional `+`/`-` sign and optional digits, and at least one digit
overall. -/
def numberShape (rs : List Int) : Prop :=
  ∃ d1 f e,
    rs = d1 ++ f ++ e ∧ digitsOnly d1 ∧
    (f = [] ∨ ∃ fd, f = 46 :: fd ∧ digitsOnly fd) ∧ expShape e ∧
    (∃ c ∈ rs, 48 ≤ c ∧ c ≤ 57)

/-- The states of the lexer reachable from `NewLexer src` by any sequence
of `Scan` and `ScanRegex` calls (at any fuels). -/
inductive Reachable (bs : List Nat) : Lexer → Prop
  | base : Reachable bs (newLexer bs)
  | scan {l l' : Lexer} {r : ScanRes} {fuel : Nat} (h : Reachable bs l)
      (hs : ScanF fuel l = some (l', r)) : Reachable bs l'
  | regex {l l' : Lexer} {r : ScanRes} {fuel : Nat} (h : Reachable bs l)
      (hs : ScanRegexF fuel l = some (l', r)) : Reachable bs l'

/-- Repeatedly `Scan` until the token type is `EOF` or `ILLEGAL` (the
documented driving loop), collecting the results. -/
def scanTokensF : Nat → Lexer → Option (List ScanRes)
  | 0, _ => none
  | fuel + 1, l =>
    match ScanF (fuel + 1) l with
    | none => none
    | some (l', r) =>
      if r.tok = Tok.EOF ∨ r.tok = Tok.ILLEGAL then some [r]
      else
        match scanTokensF fuel l' with
        | none => none
        | some ts => some (r :: ts)

/-! ## Basic lemmas about decoding and `next` -/

theorem decodeRune_nonneg (bs : List Nat) : 0 ≤ (decodeRune bs).1 := by
  rcases bs with _ | ⟨b0, _ | ⟨b1, _ | ⟨b2, _ | ⟨b3, t⟩⟩⟩⟩ <;>
    simp only [decodeRune] <;> first | omega | (split_ifs <;> omega)

theorem decodeRune_size_pos (b : Nat) (rest : List Nat) :
    1 ≤ (decodeRune (b :: rest)).2 := by
  rcases rest with _ | ⟨b1, _ | ⟨b2, _ | ⟨b3, t⟩⟩⟩ <;>
    simp only [decodeRune] <;> first | omega | (split_ifs <;> omega)

theorem decodeRune_size_eq_zero {bs : List Nat}
    (h : (decodeRune bs).2 = 0) : bs = [] := by
  cases bs with
  | nil => rfl
  | cons b rest => have := decodeRune_size_pos b rest; omega

@[simp] theorem next_src (l : Lexer) : (next l).src = l.src := by
  simp only [next]; split_ifs <;> rfl

@[simp] theorem next_hadSpace (l : Lexer) : (next l).hadSpace = l.hadSpace := by
  simp only [next]; split_ifs <;> rfl

@[simp] theorem next_lastTok (l : Lexer) : (next l).lastTok = l.lastTok := by
  simp only [next]; split_ifs <;> rfl

theorem string_append_ne_empty_left (s t : String) (h : s ≠ "") : s ++ t ≠ "" := by
  intro he
  apply h
  have hd := congrArg String.data he
  rw [String.data_append] at hd
  rcases List.append_eq_nil.mp hd with ⟨h1, _⟩
  cases s
  simpa [String.ext_iff] using h1

theorem invalidUTF8Msg_ne (b : Nat) : invalidUTF8Msg b ≠ "" :=
  string_append_ne_empty_left _ _ (by decide)

theorem next_eq_eof {l : Lexer}
    (h0 : (decodeRune (l.src.drop l.offset)).2 = 0) :
    next l = { l with pos := l.nextPos, ch := -1 } := by
  simp [next, h0]

theorem next_eq_bad {l : Lexer}
    (h0 : (decodeRune (l.src.drop l.offset)).2 ≠ 0)
    (hf : (decodeRune (l.src.drop l.offset)).1 = 0xFFFD) :
    next l = { l with pos := l.nextPos, ch := -1,
                      errorMsg := invalidUTF8Msg ((l.src.drop l.offset).headD 0) } := by
  simp [next, h0, hf]

theorem next_eq_ok {l : Lexer}
    (h0 : (decodeRune (l.src.drop l.offset)).2 ≠ 0)
    (hf : (decodeRune (l.src.drop l.offset)).1 ≠ 0xFFFD) :
    next l = { l with pos := l.nextPos,
                      ch := (decodeRune (l.src.drop l.offset)).1,
                      offset := l.offset + (decodeRune (l.src.drop l.offset)).2,
                      nextPos :=
                        if (decodeRune (l.src.drop l.offset)).1 = 10 then
                          ⟨l.nextPos.Line + 1, 1⟩
                        else ⟨l.nextPos.Line, l.nextPos.Column + 1⟩ } := by
  simp [next, h0, hf]

theorem next_errorMsg (l : Lexer) :
    (next l).errorMsg = l.errorMsg ∨ (next l).errorMsg ≠ "" := by
  by_cases h0 : (decodeRune (l.src.drop l.offset)).2 = 0
  · rw [next_eq_eof h0]; left; rfl
  · by_cases hf : (decodeRune (l.src.drop l.offset)).1 = 0xFFFD
    · rw [next_eq_bad h0 hf]; right; exact invalidUTF8Msg_ne _
    · rw [next_eq_ok h0 hf]; left; rfl

theorem next_errorMsg_ne {l : Lexer} (h : l.errorMsg ≠ "") :
    (next l).errorMsg ≠ "" := by
  rcases next_errorMsg l with he | he
  · rw [he]; exact h
  · exact he

/-- Case characterization of `next`, avoiding re-unfolding it later. -/
theorem next_cases (l : Lexer) :
    (next l).pos = l.nextPos ∧ (next l).src = l.src ∧
    ((((next l).ch = -1 ∧ (next l).nextPos = l.nextPos ∧
        ((next l).errorMsg ≠ "" ∨ (next l).src.drop (next l).offset = []))) ∨
     (0 ≤ (next l).ch ∧
        (next l).nextPos = (if (next l).ch = 10 then ⟨l.nextPos.Line + 1, 1⟩
                            else ⟨l.nextPos.Line, l.nextPos.Column + 1⟩))) := by
  by_cases h0 : (decodeRune (l.src.drop l.offset)).2 = 0
  · rw [next_eq_eof h0]
    refine ⟨rfl, rfl, Or.inl ⟨rfl, rfl, Or.inr ?_⟩⟩
    simpa using decodeRune_size_eq_zero h0
  · by_cases hf : (decodeRune (l.src.drop l.offset)).1 = 0xFFFD
    · rw [next_eq_bad h0 hf]
      exact ⟨rfl, rfl, Or.inl ⟨rfl, rfl, Or.inl (invalidUTF8Msg_ne _)⟩⟩
    · rw [next_eq_ok h0 hf]
      exact ⟨rfl, rfl, Or.inr ⟨decodeRune_nonneg _, rfl⟩⟩

theorem stateInv_next_of_nextPos {l : Lexer} (h : PosOK l.nextPos) :
    StateInv (next l) := by
  obtain ⟨hl2, hc2⟩ := h
  obtain ⟨hp, _, hc⟩ := next_cases l
  rcases hc with ⟨hch, hnp, herr⟩ | ⟨hch, hnp⟩
  · refine ⟨?_, ?_, ?_, ?_, ?_⟩
    · rw [hp]; exact ⟨hl2, hc2⟩
    · rw [hnp]; exact ⟨hl2, hc2⟩
    · intro h0; rw [hch] at h0; norm_num at h0
    · intro _; rw [hnp, hp]
    · intro _; exact herr
  · refine ⟨?_, ?_, ?_, ?_, ?_⟩
    · rw [hp]; exact ⟨hl2, hc2⟩
    · rw [hnp]; split_ifs <;> simp [PosOK] <;> omega
    · intro _; rw [hnp, hp]
    · intro h0; exact (by omega : False).elim
    · intro h0; exact (by omega : False).elim

theorem stateInv_next {l : Lexer} (h : StateInv l) : StateInv (next l) :=
  stateInv_next_of_nextPos h.2.1

theorem utf8ValidAux_congr :
    ∀ (f1 f2 : Nat) (bs : List Nat), bs.length ≤ f1 → bs.length ≤ f2 →
      utf8ValidAux f1 bs = utf8ValidAux f2 bs := by
  intro f1
  induction f1 with
  | zero =>
    intro f2 bs h1 _
    have : bs = [] := List.length_eq_zero.mp (by omega)
    subst this
    cases f2 <;> rfl
  | succ n ih =>
    intro f2 bs h1 h2
    cases bs with
    | nil => cases f2 <;> rfl
    | cons b rest =>
      cases f2 with
      | zero => simp at h2
      | succ m =>
        simp only [utf8ValidAux]
        split_ifs
        · rfl
        · apply ih
          · have := decodeRune_size_pos b rest
            simp only [List.length_drop]
            simp at h1 ⊢
            omega
          · have := decodeRune_size_pos b rest
            simp only [List.length_drop]
            simp at h2 ⊢
            omega

/-- Dropping a successfully decoded rune preserves (in)validity. -/
theorem utf8ValidList_drop {bs : List Nat} (hne : bs ≠ [])
    (hf : (decodeRune bs).1 ≠ 0xFFFD) :
    utf8ValidList (bs.drop (decodeRune bs).2) = utf8ValidList bs := by
  cases bs with
  | nil => exact absurd rfl hne
  | cons b rest =>
    unfold utf8ValidList
    conv_rhs => rw [show (b :: rest).length = rest.length + 1 from rfl]
    rw [show utf8ValidAux (rest.length + 1) (b :: rest) =
          (if (decodeRune (b :: rest)).1 = 0xFFFD then false
           else utf8ValidAux rest.length ((b :: rest).drop (decodeRune (b :: rest)).2))
        from rfl]
    rw [if_neg hf]
    apply utf8ValidAux_congr <;> simp only [List.length_drop] <;>
      have := decodeRune_size_pos b rest <;> simp <;> omega

theorem badUTF_next {l : Lexer} (h : BadUTF l) : BadUTF (next l) := by
  rcases h with hbad | herr
  · by_cases h0 : (decodeRune (l.src.drop l.offset)).2 = 0
    · exfalso
      have := decodeRune_size_eq_zero h0
      rw [this] at hbad
      simp [utf8ValidList, utf8ValidAux] at hbad
    · by_cases hf : (decodeRune (l.src.drop l.offset)).1 = 0xFFFD
      · right
        rw [next_eq_bad h0 hf]
        exact invalidUTF8Msg_ne _
      · left
        rw [next_eq_ok h0 hf]
        have hne : l.src.drop l.offset ≠ [] := by
          intro he
          apply h0
          rw [he]
          rfl
        have h1 : (l.src.drop l.offset).drop (decodeRune (l.src.drop l.offset)).2
            = l.src.drop (l.offset + (decodeRune (l.src.drop l.offset)).2) := by
          rw [List.drop_drop, Nat.add_comm]
        show utf8ValidList (l.src.drop (l.offset + (decodeRune (l.src.drop l.offset)).2)) = false
        rw [← h1, utf8ValidList_drop hne hf]
        exact hbad
  · right
    exact next_errorMsg_ne herr

/-- `BadUTF` only depends on `src`, `offset` and `errorMsg`. -/
theorem badUTF_hs {l : Lexer} (b : Bool) (h : BadUTF l) :
    BadUTF { l with hadSpace := b } := h

theorem stateInv_hs {l : Lexer} (b : Bool) (h : StateInv l) :
    StateInv { l with hadSpace := b } := h

/-! ## Evolution along `next` chains -/

theorem NextEv.trans {a b c : Lexer} (h1 : NextEv a b) (h2 : NextEv b c) :
    NextEv a c := by
  induction h2 with
  | refl => exact h1
  | step _ ih => exact NextEv.step ih

theorem NextEv.single (l : Lexer) : NextEv l (next l) :=
  NextEv.step (NextEv.refl l)

theorem NextEv.pres {P : Lexer → Prop} (hP : ∀ x, P x → P (next x))
    {l l' : Lexer} (h : NextEv l l') (h0 : P l) : P l' := by
  induction h with
  | refl => exact h0
  | step _ ih => exact hP _ ih

theorem NextEv.src_eq {l l' : Lexer} (h : NextEv l l') : l'.src = l.src := by
  induction h with
  | refl => rfl
  | step _ ih => rw [next_src]; exact ih

theorem NextEv.hadSpace_eq {l l' : Lexer} (h : NextEv l l') :
    l'.hadSpace = l.hadSpace := by
  induction h with
  | refl => rfl
  | step _ ih => rw [next_hadSpace]; exact ih

theorem NextEv.stateInv {l l' : Lexer} (h : NextEv l l') (h0 : StateInv l) :
    StateInv l' :=
  h.pres (fun _ hx => stateInv_next hx) h0

theorem NextEv.badUTF {l l' : Lexer} (h : NextEv l l') (h0 : BadUTF l) :
    BadUTF l' :=
  h.pres (fun _ hx => badUTF_next hx) h0

theorem NextEv.errorMsg_ne {l l' : Lexer} (h : NextEv l l')
    (h0 : l.errorMsg ≠ "") : l'.errorMsg ≠ "" :=
  NextEv.pres (P := fun x => x.errorMsg ≠ "") (fun _ hx => next_errorMsg_ne hx) h h0

/-! ## Unfolding equations for the loops -/

theorem skipComment_zero {l : Lexer} (h : l.ch ≠ 10 ∧ 0 ≤ l.ch) :
    skipComment 0 l = none := by
  conv_lhs => unfold skipComment
  rw [if_pos h]

theorem skipComment_succ {fuel : Nat} {l : Lexer} (h : l.ch ≠ 10 ∧ 0 ≤ l.ch) :
    skipComment (fuel + 1) l = skipComment fuel (next l) := by
  conv_lhs => unfold skipComment
  rw [if_pos h]

theorem skipComment_exit {fuel : Nat} {l : Lexer} (h : ¬ (l.ch ≠ 10 ∧ 0 ≤ l.ch)) :
    skipComment fuel l = some l := by
  conv_lhs => unfold skipComment
  rw [if_neg h]

theorem scanDigits_zero {l : Lexer} (h : isDigitCh l.ch = true) :
    scanDigits 0 l = none := by
  conv_lhs => unfold scanDigits
  rw [if_pos h]

theorem scanDigits_succ {fuel : Nat} {l : Lexer} (h : isDigitCh l.ch = true) :
    scanDigits (fuel + 1) l =
      match scanDigits fuel (next l) with
      | none => none
      | some (rs, l') => some (l.ch :: rs, l') := by
  conv_lhs => unfold scanDigits
  rw [if_pos h]

theorem scanDigits_exit {fuel : Nat} {l : Lexer} (h : ¬ isDigitCh l.ch = true) :
    scanDigits fuel l = some ([], l) := by
  conv_lhs => unfold scanDigits
  rw [if_neg (by simp_all)]

theorem scanNameLoop_zero {l : Lexer}
    (h : isNameStart l.ch = true ∨ isDigitCh l.ch = true) :
    scanNameLoop 0 l = none := by
  conv_lhs => unfold scanNameLoop
  rw [if_pos h]

theorem scanNameLoop_succ {fuel : Nat} {l : Lexer}
    (h : isNameStart l.ch = true ∨ isDigitCh l.ch = true) :
    scanNameLoop (fuel + 1) l =
      match scanNameLoop fuel (next l) with
      | none => none
      | some (rs, l') => some (l.ch :: rs, l') := by
  conv_lhs => unfold scanNameLoop
  rw [if_pos h]

theorem scanNameLoop_exit {fuel : Nat} {l : Lexer}
    (h : ¬ (isNameStart l.ch = true ∨ isDigitCh l.ch = true)) :
    scanNameLoop fuel l = some ([], l) := by
  conv_lhs => unfold scanNameLoop
  rw [if_neg (by simp_all)]

theorem scanStr_close {q : Int} {fuel : Nat} {rs : List Int} {l : Lexer}
    {pos : Position} (h : l.ch = q) :
    scanStr q fuel rs l pos =
      some (next l, ⟨pos, Tok.STRING, runesToString rs⟩) := by
  conv_lhs => unfold scanStr
  rw [if_neg (fun hn => hn h)]

theorem scanStr_eof {q : Int} {fuel : Nat} {rs : List Int} {l : Lexer}
    {pos : Position} (hq : l.ch ≠ q) (h : l.ch < 0) :
    scanStr q fuel rs l pos =
      some (l, ⟨l.pos, Tok.ILLEGAL, "didn't find end quote in string"⟩) := by
  conv_lhs => unfold scanStr
  rw [if_pos hq, if_pos h]

theorem scanStr_nl {q : Int} {fuel : Nat} {rs : List Int} {l : Lexer}
    {pos : Position} (hq : l.ch ≠ q) (h0 : ¬ l.ch < 0)
    (h : l.ch = 13 ∨ l.ch = 10) :
    scanStr q fuel rs l pos =
      some (l, ⟨l.pos, Tok.ILLEGAL, "can't have newline in string"⟩) := by
  conv_lhs => unfold scanStr
  rw [if_pos hq, if_neg h0, if_pos h]

theorem scanStr_zero {q : Int} {rs : List Int} {l : Lexer} {pos : Position}
    (hq : l.ch ≠ q) (h0 : ¬ l.ch < 0) (h13 : ¬ (l.ch = 13 ∨ l.ch = 10)) :
    scanStr q 0 rs l pos = none := by
  conv_lhs => unfold scanStr
  rw [if_pos hq, if_neg h0, if_neg h13]

theorem scanStr_esc {q : Int} {fuel : Nat} {rs : List Int} {l : Lexer}
    {pos : Position} (hq : l.ch ≠ q) (h0 : ¬ l.ch < 0)
    (h13 : ¬ (l.ch = 13 ∨ l.ch = 10)) (hb : l.ch = 92) :
    scanStr q (fuel + 1) rs l pos =
      scanStr q fuel
        (rs ++ [if (next l).ch = 116 then 9
                else if (next l).ch = 114 then 13
                else if (next l).ch = 110 then 10
                else (next l).ch])
        (next (next l)) pos := by
  conv_lhs => unfold scanStr
  rw [if_pos hq, if_neg h0, if_neg h13]
  show (if l.ch = 92 then _ else _) = _
  rw [if_pos hb]

theorem scanStr_plain {q : Int} {fuel : Nat} {rs : List Int} {l : Lexer}
    {pos : Position} (hq : l.ch ≠ q) (h0 : ¬ l.ch < 0)
    (h13 : ¬ (l.ch = 13 ∨ l.ch = 10)) (hb : l.ch ≠ 92) :
    scanStr q (fuel + 1) rs l pos =
      scanStr q fuel (rs ++ [l.ch]) (next l) pos := by
  conv_lhs => unfold scanStr
  rw [if_pos hq, if_neg h0, if_neg h13]
  show (if l.ch = 92 then _ else _) = _
  rw [if_neg hb]

theorem regexLoop_close {fuel : Nat} {rs : List Int} {l : Lexer}
    {pos : Position} (h : l.ch = 47) :
    regexLoop fuel rs l pos =
      some (next l, ⟨pos, Tok.REGEX, runesToString rs⟩) := by
  conv_lhs => unfold regexLoop
  rw [if_neg (fun hn => hn h)]

theorem regexLoop_eof {fuel : Nat} {rs : List Int} {l : Lexer}
    {pos : Position} (hq : l.ch ≠ 47) (h : l.ch < 0) :
    regexLoop fuel rs l pos =
      some (l, ⟨l.pos, Tok.ILLEGAL, "didn't find end slash in regex"⟩) := by
  conv_lhs => unfold regexLoop
  rw [if_pos hq, if_pos h]

theorem regexLoop_nl {fuel : Nat} {rs : List Int} {l : Lexer}
    {pos : Position} (hq : l.ch ≠ 47) (h0 : ¬ l.ch < 0)
    (h : l.ch = 13 ∨ l.ch = 10) :
    regexLoop fuel rs l pos =
      some (l, ⟨l.pos, Tok.ILLEGAL, "can't have newline in regex"⟩) := by
  conv_lhs => unfold regexLoop
  rw [if_pos hq, if_neg h0, if_pos h]

theorem regexLoop_zero {rs : List Int} {l : Lexer} {pos : Position}
    (hq : l.ch ≠ 47) (h0 : ¬ l.ch < 0) (h13 : ¬ (l.ch = 13 ∨ l.ch = 10)) :
    regexLoop 0 rs l pos = none := by
  conv_lhs => unfold regexLoop
  rw [if_pos hq, if_neg h0, if_neg h13]

theorem regexLoop_esc {fuel : Nat} {rs : List Int} {l : Lexer}
    {pos : Position} (hq : l.ch ≠ 47) (h0 : ¬ l.ch < 0)
    (h13 : ¬ (l.ch = 13 ∨ l.ch = 10)) (hb : l.ch = 92) :
    regexLoop (fuel + 1) rs l pos =
      regexLoop fuel
        ((if (next l).ch ≠ 47 then rs ++ [92] else rs) ++ [(next l).ch])
        (next (next l)) pos := by
  conv_lhs => unfold regexLoop
  rw [if_pos hq, if_neg h0, if_neg h13]
  show (if l.ch = 92 then _ else _) = _
  rw [if_pos hb]

theorem regexLoop_plain {fuel : Nat} {rs : List Int} {l : Lexer}
    {pos : Position} (hq : l.ch ≠ 47) (h0 : ¬ l.ch < 0)
    (h13 : ¬ (l.ch = 13 ∨ l.ch = 10)) (hb : l.ch ≠ 92) :
    regexLoop (fuel + 1) rs l pos =
      regexLoop fuel (rs ++ [l.ch]) (next l) pos := by
  conv_lhs => unfold regexLoop
  rw [if_pos hq, if_neg h0, if_neg h13]
  show (if l.ch = 92 then _ else _) = _
  rw [if_neg hb]

theorem skipWS_exit {fuel : Nat} {l : Lexer} (h : ¬ wsChar l.ch) :
    skipWS fuel l = some (Sum.inl l) := by
  conv_lhs => unfold skipWS
  rw [if_neg h]

theorem skipWS_zero {l : Lexer} (h : wsChar l.ch) : skipWS 0 l = none := by
  conv_lhs => unfold skipWS
  rw [if_pos h]

theorem skipWS_succ_bs {fuel : Nat} {l : Lexer} (hw : wsChar l.ch)
    (hb : l.ch = 92) :
    skipWS (fuel + 1) l =
      (let l2 := next { l with hadSpace := true }
       let l3 := if l2.ch = 13 then next l2 else l2
       if l3.ch ≠ 10 then
         some (Sum.inr (l3, ⟨l3.pos, Tok.ILLEGAL,
           "expected \\n after \\ line continuation"⟩))
       else skipWS fuel (next l3)) := by
  conv_lhs => unfold skipWS
  rw [if_pos hw]
  show (if ({ l with hadSpace := true } : Lexer).ch = 92 then _ else _) = _
  rw [if_pos (show ({ l with hadSpace := true } : Lexer).ch = 92 from hb)]

theorem skipWS_succ_sp {fuel : Nat} {l : Lexer} (hw : wsChar l.ch)
    (hb : l.ch ≠ 92) :
    skipWS (fuel + 1) l = skipWS fuel (next { l with hadSpace := true }) := by
  conv_lhs => unfold skipWS
  rw [if_pos hw]
  show (if ({ l with hadSpace := true } : Lexer).ch = 92 then _ else _) = _
  rw [if_neg (show ¬ ({ l with hadSpace := true } : Lexer).ch = 92 from hb)]


/-! ## Evolution of each loop -/

theorem set_hadSpace_self {l : Lexer} (h : l.hadSpace = true) :
    { l with hadSpace := true } = l := by
  cases l
  simp_all

theorem isDigitCh_iff {c : Int} : isDigitCh c = true ↔ 48 ≤ c ∧ c ≤ 57 := by
  simp [isDigitCh]

theorem skipComment_ev : ∀ {fuel : Nat} {l l' : Lexer},
    skipComment fuel l = some l' → NextEv l l' := by
  intro fuel
  induction fuel with
  | zero =>
    intro l l' h
    by_cases hc : l.ch ≠ 10 ∧ 0 ≤ l.ch
    · rw [skipComment_zero hc] at h; exact absurd h (by simp)
    · rw [skipComment_exit hc] at h
      simp only [Option.some.injEq] at h
      subst h; exact NextEv.refl _
  | succ n ih =>
    intro l l' h
    by_cases hc : l.ch ≠ 10 ∧ 0 ≤ l.ch
    · rw [skipComment_succ hc] at h
      exact (NextEv.single l).trans (ih h)
    · rw [skipComment_exit hc] at h
      simp only [Option.some.injEq] at h
      subst h; exact NextEv.refl _

theorem scanDigits_ev : ∀ {fuel : Nat} {l l' : Lexer} {rs : List Int},
    scanDigits fuel l = some (rs, l') → NextEv l l' := by
  intro fuel
  induction fuel with
  | zero =>
    intro l l' rs h
    by_cases hd : isDigitCh l.ch = true
    · rw [scanDigits_zero hd] at h; exact absurd h (by simp)
    · rw [scanDigits_exit hd] at h
      simp only [Option.some.injEq, Prod.mk.injEq] at h
      rw [← h.2]; exact NextEv.refl _
  | succ n ih =>
    intro l l' rs h
    by_cases hd : isDigitCh l.ch = true
    · rw [scanDigits_succ hd] at h
      cases hrec : scanDigits n (next l) with
      | none => rw [hrec] at h; exact absurd h (by simp)
      | some p =>
        obtain ⟨a, b⟩ := p
        rw [hrec] at h
        simp only [Option.some.injEq, Prod.mk.injEq] at h
        rw [← h.2]
        exact (NextEv.single l).trans (ih hrec)
    · rw [scanDigits_exit hd] at h
      simp only [Option.some.injEq, Prod.mk.injEq] at h
      rw [← h.2]; exact NextEv.refl _

theorem scanDigits_facts : ∀ {fuel : Nat} {l l' : Lexer} {rs : List Int},
    scanDigits fuel l = some (rs, l') →
    digitsOnly rs ∧ (isDigitCh l.ch = true → rs ≠ []) := by
  intro fuel
  induction fuel with
  | zero =>
    intro l l' rs h
    by_cases hd : isDigitCh l.ch = true
    · rw [scanDigits_zero hd] at h; exact absurd h (by simp)
    · rw [scanDigits_exit hd] at h
      simp only [Option.some.injEq, Prod.mk.injEq] at h
      rw [← h.1]
      exact ⟨fun c hc => absurd hc (by simp), fun hdig => absurd hdig hd⟩
  | succ n ih =>
    intro l l' rs h
    by_cases hd : isDigitCh l.ch = true
    · rw [scanDigits_succ hd] at h
      cases hrec : scanDigits n (next l) with
      | none => rw [hrec] at h; exact absurd h (by simp)
      | some p =>
        obtain ⟨a, b⟩ := p
        rw [hrec] at h
        simp only [Option.some.injEq, Prod.mk.injEq] at h
        rw [← h.1]
        refine ⟨fun c hc => ?_, fun _ => by simp⟩
        rcases List.mem_cons.mp hc with rfl | hmem
        · exact isDigitCh_iff.mp hd
        · exact (ih hrec).1 c hmem
    · rw [scanDigits_exit hd] at h
      simp only [Option.some.injEq, Prod.mk.injEq] at h
      rw [← h.1]
      exact ⟨fun c hc => absurd hc (by simp), fun hdig => absurd hdig hd⟩

theorem scanNameLoop_ev : ∀ {fuel : Nat} {l l' : Lexer} {rs : List Int},
    scanNameLoop fuel l = some (rs, l') → NextEv l l' := by
  intro fuel
  induction fuel with
  | zero =>
    intro l l' rs h
    by_cases hd : isNameStart l.ch = true ∨ isDigitCh l.ch = true
    · rw [scanNameLoop_zero hd] at h; exact absurd h (by simp)
    · rw [scanNameLoop_exit hd] at h
      simp only [Option.some.injEq, Prod.mk.injEq] at h
      rw [← h.2]; exact NextEv.refl _
  | succ n ih =>
    intro l l' rs h
    by_cases hd : isNameStart l.ch = true ∨ isDigitCh l.ch = true
    · rw [scanNameLoop_succ hd] at h
      cases hrec : scanNameLoop n (next l) with
      | none => rw [hrec] at h; exact absurd h (by simp)
      | some p =>
        obtain ⟨a, b⟩ := p
        rw [hrec] at h
        simp only [Option.some.injEq, Prod.mk.injEq] at h
        rw [← h.2]
        exact (NextEv.single l).trans (ih hrec)
    · rw [scanNameLoop_exit hd] at h
      simp only [Option.some.injEq, Prod.mk.injEq] at h
      rw [← h.2]; exact NextEv.refl _

theorem scanStr_ev : ∀ {fuel : Nat} {q : Int} {rs : List Int} {l l' : Lexer}
    {pos : Position} {r : ScanRes},
    scanStr q fuel rs l pos = some (l', r) → NextEv l l' := by
  intro fuel
  induction fuel with
  | zero =>
    intro q rs l l' pos r h
    by_cases hq : l.ch = q
    · rw [scanStr_close hq] at h
      simp only [Option.some.injEq, Prod.mk.injEq] at h
      rw [← h.1]; exact NextEv.single _
    · by_cases h0 : l.ch < 0
      · rw [scanStr_eof hq h0] at h
        simp only [Option.some.injEq, Prod.mk.injEq] at h
        rw [← h.1]; exact NextEv.refl _
      · by_cases h13 : l.ch = 13 ∨ l.ch = 10
        · rw [scanStr_nl hq h0 h13] at h
          simp only [Option.some.injEq, Prod.mk.injEq] at h
          rw [← h.1]; exact NextEv.refl _
        · rw [scanStr_zero hq h0 h13] at h; exact absurd h (by simp)
  | succ n ih =>
    intro q rs l l' pos r h
    by_cases hq : l.ch = q
    · rw [scanStr_close hq] at h
      simp only [Option.some.injEq, Prod.mk.injEq] at h
      rw [← h.1]; exact NextEv.single _
    · by_cases h0 : l.ch < 0
      · rw [scanStr_eof hq h0] at h
        simp only [Option.some.injEq, Prod.mk.injEq] at h
        rw [← h.1]; exact NextEv.refl _
      · by_cases h13 : l.ch = 13 ∨ l.ch = 10
        · rw [scanStr_nl hq h0 h13] at h
          simp only [Option.some.injEq, Prod.mk.injEq] at h
          rw [← h.1]; exact NextEv.refl _
        · by_cases hb : l.ch = 92
          · rw [scanStr_esc hq h0 h13 hb] at h
            exact ((NextEv.single l).trans (NextEv.single (next l))).trans (ih h)
          · rw [scanStr_plain hq h0 h13 hb] at h
            exact (NextEv.single l).trans (ih h)

theorem regexLoop_ev : ∀ {fuel : Nat} {rs : List Int} {l l' : Lexer}
    {pos : Position} {r : ScanRes},
    regexLoop fuel rs l pos = some (l', r) → NextEv l l' := by
  intro fuel
  induction fuel with
  | zero =>
    intro rs l l' pos r h
    by_cases hq : l.ch = 47
    · rw [regexLoop_close hq] at h
      simp only [Option.some.injEq, Prod.mk.injEq] at h
      rw [← h.1]; exact NextEv.single _
    · by_cases h0 : l.ch < 0
      · rw [regexLoop_eof hq h0] at h
        simp only [Option.some.injEq, Prod.mk.injEq] at h
        rw [← h.1]; exact NextEv.refl _
      · by_cases h13 : l.ch = 13 ∨ l.ch = 10
        · rw [regexLoop_nl hq h0 h13] at h
          simp only [Option.some.injEq, Prod.mk.injEq] at h
          rw [← h.1]; exact NextEv.refl _
        · rw [regexLoop_zero hq h0 h13] at h; exact absurd h (by simp)
  | succ n ih =>
    intro rs l l' pos r h
    by_cases hq : l.ch = 47
    · rw [regexLoop_close hq] at h
      simp only [Option.some.injEq, Prod.mk.injEq] at h
      rw [← h.1]; exact NextEv.single _
    · by_cases h0 : l.ch < 0
      · rw [regexLoop_eof hq h0] at h
        simp only [Option.some.injEq, Prod.mk.injEq] at h
        rw [← h.1]; exact NextEv.refl _
      · by_cases h13 : l.ch = 13 ∨ l.ch = 10
        · rw [regexLoop_nl hq h0 h13] at h
          simp only [Option.some.injEq, Prod.mk.injEq] at h
          rw [← h.1]; exact NextEv.refl _
        · by_cases hb : l.ch = 92
          · rw [regexLoop_esc hq h0 h13 hb] at h
            exact ((NextEv.single l).trans (NextEv.single (next l))).trans (ih h)
          · rw [regexLoop_plain hq h0 h13 hb] at h
            exact (NextEv.single l).trans (ih h)

theorem scanNumberExp_ev {fuel : Nat} {pos : Position} {runes : List Int}
    {l l' : Lexer} {r : ScanRes}
    (h : scanNumberExp fuel pos runes l = some (l', r)) : NextEv l l' := by
  unfold scanNumberExp at h
  split_ifs at h with he
  · dsimp only at h
    by_cases hs : (next l).ch = 43 ∨ (next l).ch = 45
    · rw [if_pos hs] at h
      dsimp only at h
      cases hd : scanDigits fuel (next (next l)) with
      | none => rw [hd] at h; exact absurd h (by simp)
      | some p =>
        obtain ⟨ds3, l2⟩ := p
        rw [hd] at h
        simp only [Option.some.injEq, Prod.mk.injEq] at h
        rw [← h.1]
        exact ((NextEv.single l).trans (NextEv.single (next l))).trans
          (scanDigits_ev hd)
    · rw [if_neg hs] at h
      dsimp only at h
      cases hd : scanDigits fuel (next l) with
      | none => rw [hd] at h; exact absurd h (by simp)
      | some p =>
        obtain ⟨ds3, l2⟩ := p
        rw [hd] at h
        simp only [Option.some.injEq, Prod.mk.injEq] at h
        rw [← h.1]
        exact (NextEv.single l).trans (scanDigits_ev hd)
  · simp only [Option.some.injEq, Prod.mk.injEq] at h
    rw [← h.1]
    exact NextEv.refl _

theorem scanNumberTail_ev {fuel : Nat} {pos : Position} {g : Bool}
    {runes : List Int} {l l' : Lexer} {r : ScanRes}
    (h : scanNumberTail fuel pos g runes l = some (l', r)) : NextEv l l' := by
  unfold scanNumberTail at h
  cases hd : scanDigits fuel l with
  | none => rw [hd] at h; exact absurd h (by simp)
  | some p =>
    obtain ⟨ds2, l1⟩ := p
    rw [hd] at h
    dsimp only at h
    split_ifs at h <;>
      first
        | exact (scanDigits_ev hd).trans (scanNumberExp_ev h)
        | (simp only [Option.some.injEq, Prod.mk.injEq] at h
           rw [← h.1]
           exact scanDigits_ev hd)

theorem scanNumber_ev {fuel : Nat} {pos : Position} {ch : Int} {l l' : Lexer}
    {r : ScanRes} (h : scanNumber fuel pos ch l = some (l', r)) :
    NextEv l l' := by
  unfold scanNumber at h
  split_ifs at h <;>
    first
      | exact scanNumberTail_ev h
      | (cases hd : scanDigits fuel l with
         | none => rw [hd] at h; exact absurd h (by simp)
         | some p =>
           obtain ⟨ds1, l1⟩ := p
           rw [hd] at h
           dsimp only at h
           split_ifs at h <;>
             first
               | exact ((scanDigits_ev hd).trans (NextEv.single l1)).trans
                   (scanNumberTail_ev h)
               | exact (scanDigits_ev hd).trans (scanNumberTail_ev h))

theorem choice_ev (l : Lexer) (c : Int) (one two : Tok) :
    NextEv l (choice l c one two).1 := by
  unfold choice
  split_ifs
  · exact NextEv.single _
  · exact NextEv.refl _

theorem retTok_inj {pos : Position} {l : Lexer} {tok : Tok} {l' : Lexer}
    {r : ScanRes} (h : retTok pos l tok = some (l', r)) :
    l' = l ∧ r = ⟨pos, tok, ""⟩ := by
  unfold retTok at h
  simp only [Option.some.injEq, Prod.mk.injEq] at h
  exact ⟨h.1.symm, h.2.symm⟩


/-! ## Result characterization of the loops -/

theorem choice_pos {l : Lexer} {c : Int} {one two : Tok} (h : l.ch = c) :
    choice l c one two = (next l, two) := by
  unfold choice; rw [if_pos h]

theorem choice_neg {l : Lexer} {c : Int} {one two : Tok} (h : l.ch ≠ c) :
    choice l c one two = (l, one) := by
  unfold choice; rw [if_neg h]

theorem scanStr_res : ∀ {fuel : Nat} {q : Int} {rs : List Int} {l l' : Lexer}
    {pos : Position} {r : ScanRes},
    scanStr q fuel rs l pos = some (l', r) →
    (r.tok = Tok.STRING ∧ r.pos = pos) ∨
    (r.tok = Tok.ILLEGAL ∧ r.pos = l'.pos ∧ r.val ≠ "") := by
  intro fuel
  induction fuel with
  | zero =>
    intro q rs l l' pos r h
    by_cases hq : l.ch = q
    · rw [scanStr_close hq] at h
      simp only [Option.some.injEq, Prod.mk.injEq] at h
      rw [← h.2]
      exact Or.inl ⟨rfl, rfl⟩
    · by_cases h0 : l.ch < 0
      · rw [scanStr_eof hq h0] at h
        simp only [Option.some.injEq, Prod.mk.injEq] at h
        rw [← h.2, ← h.1]
        exact Or.inr ⟨rfl, rfl,
          (by decide : ("didn't find end quote in string" : String) ≠ "")⟩
      · by_cases h13 : l.ch = 13 ∨ l.ch = 10
        · rw [scanStr_nl hq h0 h13] at h
          simp only [Option.some.injEq, Prod.mk.injEq] at h
          rw [← h.2, ← h.1]
          exact Or.inr ⟨rfl, rfl,
            (by decide : ("can't have newline in string" : String) ≠ "")⟩
        · rw [scanStr_zero hq h0 h13] at h; exact absurd h (by simp)
  | succ n ih =>
    intro q rs l l' pos r h
    by_cases hq : l.ch = q
    · rw [scanStr_close hq] at h
      simp only [Option.some.injEq, Prod.mk.injEq] at h
      rw [← h.2]
      exact Or.inl ⟨rfl, rfl⟩
    · by_cases h0 : l.ch < 0
      · rw [scanStr_eof hq h0] at h
        simp only [Option.some.injEq, Prod.mk.injEq] at h
        rw [← h.2, ← h.1]
        exact Or.inr ⟨rfl, rfl,
          (by decide : ("didn't find end quote in string" : String) ≠ "")⟩
      · by_cases h13 : l.ch = 13 ∨ l.ch = 10
        · rw [scanStr_nl hq h0 h13] at h
          simp only [Option.some.injEq, Prod.mk.injEq] at h
          rw [← h.2, ← h.1]
          exact Or.inr ⟨rfl, rfl,
            (by decide : ("can't have newline in string" : String) ≠ "")⟩
        · by_cases hb : l.ch = 92
          · rw [scanStr_esc hq h0 h13 hb] at h
            exact ih h
          · rw [scanStr_plain hq h0 h13 hb] at h
            exact ih h

/-- The regex loop returns either `REGEX` at the passed position, with the
passed runes as a prefix of the value and the closing slash consumed, or
`ILLEGAL` at the current position with a nonempty message. -/
theorem regexLoop_res : ∀ {fuel : Nat} {rs : List Int} {l l' : Lexer}
    {pos : Position} {r : ScanRes},
    regexLoop fuel rs l pos = some (l', r) →
    (r.tok = Tok.REGEX ∧ r.pos = pos ∧
       (∃ ext, r.val = runesToString (rs ++ ext)) ∧
       (∃ l0 : Lexer, l0.ch = 47 ∧ l' = next l0)) ∨
    (r.tok = Tok.ILLEGAL ∧ r.pos = l'.pos ∧ r.val ≠ "") := by
  intro fuel
  induction fuel with
  | zero =>
    intro rs l l' pos r h
    by_cases hq : l.ch = 47
    · rw [regexLoop_close hq] at h
      simp only [Option.some.injEq, Prod.mk.injEq] at h
      rw [← h.2, ← h.1]
      exact Or.inl ⟨rfl, rfl, ⟨[], by simp⟩, ⟨l, hq, rfl⟩⟩
    · by_cases h0 : l.ch < 0
      · rw [regexLoop_eof hq h0] at h
        simp only [Option.some.injEq, Prod.mk.injEq] at h
        rw [← h.2, ← h.1]
        exact Or.inr ⟨rfl, rfl,
          (by decide : ("didn't find end slash in regex" : String) ≠ "")⟩
      · by_cases h13 : l.ch = 13 ∨ l.ch = 10
        · rw [regexLoop_nl hq h0 h13] at h
          simp only [Option.some.injEq, Prod.mk.injEq] at h
          rw [← h.2, ← h.1]
          exact Or.inr ⟨rfl, rfl,
            (by decide : ("can't have newline in regex" : String) ≠ "")⟩
        · rw [regexLoop_zero hq h0 h13] at h; exact absurd h (by simp)
  | succ n ih =>
    intro rs l l' pos r h
    by_cases hq : l.ch = 47
    · rw [regexLoop_close hq] at h
      simp only [Option.some.injEq, Prod.mk.injEq] at h
      rw [← h.2, ← h.1]
      exact Or.inl ⟨rfl, rfl, ⟨[], by simp⟩, ⟨l, hq, rfl⟩⟩
    · by_cases h0 : l.ch < 0
      · rw [regexLoop_eof hq h0] at h
        simp only [Option.some.injEq, Prod.mk.injEq] at h
        rw [← h.2, ← h.1]
        exact Or.inr ⟨rfl, rfl,
          (by decide : ("didn't find end slash in regex" : String) ≠ "")⟩
      · by_cases h13 : l.ch = 13 ∨ l.ch = 10
        · rw [regexLoop_nl hq h0 h13] at h
          simp only [Option.some.injEq, Prod.mk.injEq] at h
          rw [← h.2, ← h.1]
          exact Or.inr ⟨rfl, rfl,
            (by decide : ("can't have newline in regex" : String) ≠ "")⟩
        · by_cases hb : l.ch = 92
          · rw [regexLoop_esc hq h0 h13 hb] at h
            rcases ih h with ⟨ht, hp, ⟨ext, hval⟩, hcl⟩ | hbad
            · refine Or.inl ⟨ht, hp, ⟨?_, ?_⟩, hcl⟩
              · exact (if (next l).ch ≠ 47 then [92] else []) ++ [(next l).ch] ++ ext
              · rw [hval]
                congr 1
                by_cases h47 : (next l).ch ≠ 47 <;> simp [h47]
            · exact Or.inr hbad
          · rw [regexLoop_plain hq h0 h13 hb] at h
            rcases ih h with ⟨ht, hp, ⟨ext, hval⟩, hcl⟩ | hbad
            · refine Or.inl ⟨ht, hp, ⟨[l.ch] ++ ext, ?_⟩, hcl⟩
              rw [hval]
              congr 1
              simp
            · exact Or.inr hbad

theorem scanNumberExp_res {fuel : Nat} {pos : Position} {runes : List Int}
    {l l' : Lexer} {r : ScanRes}
    (h : scanNumberExp fuel pos runes l = some (l', r)) :
    r.tok = Tok.NUMBER ∧ r.pos = pos ∧
    ∃ ep, r.val = runesToString (runes ++ ep) ∧ expShape ep := by
  unfold scanNumberExp at h
  split_ifs at h with he
  · dsimp only at h
    by_cases hs : (next l).ch = 43 ∨ (next l).ch = 45
    · rw [if_pos hs] at h
      dsimp only at h
      cases hd : scanDigits fuel (next (next l)) with
      | none => rw [hd] at h; exact absurd h (by simp)
      | some p =>
        obtain ⟨ds3, l2⟩ := p
        rw [hd] at h
        simp only [Option.some.injEq, Prod.mk.injEq] at h
        rw [← h.2]
        refine ⟨rfl, rfl, [l.ch] ++ [(next l).ch] ++ ds3, ?_, ?_⟩
        · congr 1
          simp
        · refine Or.inr ⟨l.ch, [(next l).ch], ds3, by simp, he, ?_, (scanDigits_facts hd).1⟩
          rcases hs with hs | hs
          · exact Or.inr (Or.inl (by rw [hs]))
          · exact Or.inr (Or.inr (by rw [hs]))
    · rw [if_neg hs] at h
      dsimp only at h
      cases hd : scanDigits fuel (next l) with
      | none => rw [hd] at h; exact absurd h (by simp)
      | some p =>
        obtain ⟨ds3, l2⟩ := p
        rw [hd] at h
        simp only [Option.some.injEq, Prod.mk.injEq] at h
        rw [← h.2]
        refine ⟨rfl, rfl, [l.ch] ++ ds3, ?_, ?_⟩
        · congr 1
          simp
        · exact Or.inr ⟨l.ch, [], ds3, by simp, he, Or.inl rfl, (scanDigits_facts hd).1⟩
  · simp only [Option.some.injEq, Prod.mk.injEq] at h
    rw [← h.2]
    exact ⟨rfl, rfl, [], by simp, Or.inl rfl⟩

theorem scanNumberTail_res {fuel : Nat} {pos : Position} {g : Bool}
    {runes : List Int} {l l' : Lexer} {r : ScanRes}
    (h : scanNumberTail fuel pos g runes l = some (l', r)) :
    (r.tok = Tok.ILLEGAL ∧ r.pos = l'.pos ∧ r.val = "expected digits" ∧
       g = false ∧ isDigitCh l.ch ≠ true) ∨
    (r.tok = Tok.NUMBER ∧ r.pos = pos ∧
       ∃ ds2 ep, r.val = runesToString (runes ++ ds2 ++ ep) ∧ digitsOnly ds2 ∧
         (g = true ∨ ds2 ≠ []) ∧ expShape ep ∧
         (isDigitCh l.ch = true → ds2 ≠ [])) := by
  unfold scanNumberTail at h
  cases hd : scanDigits fuel l with
  | none => rw [hd] at h; exact absurd h (by simp)
  | some p =>
    obtain ⟨ds2, l1⟩ := p
    rw [hd] at h
    dsimp only at h
    obtain ⟨hfacts1, hfacts2⟩ := scanDigits_facts hd
    by_cases hg : ¬ (g = true ∨ ds2 ≠ [])
    · rw [if_pos hg] at h
      simp only [Option.some.injEq, Prod.mk.injEq] at h
      rw [← h.2, ← h.1]
      have hg1 : ¬ g = true := by tauto
      have hg2 : ds2 = [] := by tauto
      refine Or.inl ⟨rfl, rfl, rfl, ?_, ?_⟩
      · cases g
        · rfl
        · exact absurd rfl hg1
      · intro hdig
        exact (hfacts2 hdig) hg2
    · rw [if_neg hg] at h
      obtain ⟨ht, hp, ep, hval, hshape⟩ := scanNumberExp_res h
      refine Or.inr ⟨ht, hp, ds2, ep, ?_, hfacts1, by tauto, hshape, hfacts2⟩
      rw [hval]

theorem scanNumber_res {fuel : Nat} {pos : Position} {ch : Int} {l l' : Lexer}
    {r : ScanRes} (h : scanNumber fuel pos ch l = some (l', r)) :
    (r.tok = Tok.ILLEGAL ∧ r.pos = l'.pos ∧ r.val = "expected digits" ∧
       ch = 46 ∧ isDigitCh l.ch ≠ true) ∨
    (r.tok = Tok.NUMBER ∧ r.pos = pos) := by
  unfold scanNumber at h
  split_ifs at h with h46
  · cases hd : scanDigits fuel l with
    | none => rw [hd] at h; exact absurd h (by simp)
    | some p =>
      obtain ⟨ds1, l1⟩ := p
      rw [hd] at h
      dsimp only at h
      split_ifs at h with hdot
      · rcases scanNumberTail_res h with ⟨_, _, _, hg, _⟩ | ⟨ht, hp, _⟩
        · exact absurd hg (by simp)
        · exact Or.inr ⟨ht, hp⟩
      · rcases scanNumberTail_res h with ⟨_, _, _, hg, _⟩ | ⟨ht, hp, _⟩
        · exact absurd hg (by simp)
        · exact Or.inr ⟨ht, hp⟩
  · push_neg at h46
    rcases scanNumberTail_res h with ⟨ht, hp, hv, _, hd⟩ | ⟨ht, hp, _⟩
    · exact Or.inl ⟨ht, hp, hv, h46, hd⟩
    · exact Or.inr ⟨ht, hp⟩


set_option maxHeartbeats 1600000 in
/-- One pass over the `scan` switch: the produced state evolves by `next`
steps; the token is never `REGEX` or `EOF`; the position is the token start
or the current position; `ILLEGAL` carries a message; and `DIV`/`DIV_ASSIGN`
arise only from the `/` case. -/
theorem scanSwitch_main {fuel : Nat} {pos : Position} {ch : Int} {l l' : Lexer}
    {r : ScanRes} (h : scanSwitch fuel pos ch l = some (l', r)) :
    NextEv l l' ∧
    r.tok ≠ Tok.REGEX ∧ r.tok ≠ Tok.EOF ∧
    (r.pos = pos ∨ r.pos = l'.pos) ∧
    (r.tok = Tok.ILLEGAL → r.val ≠ "") ∧
    (r.tok = Tok.DIV → ch = 47 ∧ l' = l) ∧
    (r.tok = Tok.DIV_ASSIGN → ch = 47 ∧ l' = next l ∧ l.ch = 61) := by
  unfold scanSwitch at h
  dsimp only at h
  by_cases hc1 : ch = 10
  · rw [if_pos hc1] at h
    obtain ⟨rfl, rfl⟩ := retTok_inj h
    exact ⟨NextEv.refl _, by simp, by simp, Or.inl rfl, by simp, by simp, by simp⟩
  · rw [if_neg hc1] at h
    by_cases hc2 : ch = 58
    · rw [if_pos hc2] at h
      obtain ⟨rfl, rfl⟩ := retTok_inj h
      exact ⟨NextEv.refl _, by simp, by simp, Or.inl rfl, by simp, by simp, by simp⟩
    · rw [if_neg hc2] at h
      by_cases hc3 : ch = 44
      · rw [if_pos hc3] at h
        obtain ⟨rfl, rfl⟩ := retTok_inj h
        exact ⟨NextEv.refl _, by simp, by simp, Or.inl rfl, by simp, by simp, by simp⟩
      · rw [if_neg hc3] at h
        by_cases hc4 : ch = 47
        · rw [if_pos hc4] at h
          obtain ⟨rfl, rfl⟩ := retTok_inj h
          by_cases hd1 : l.ch = 61
          · rw [choice_pos hd1]
            refine ⟨NextEv.single _, by simp, by simp, Or.inl rfl, by simp, by simp, ?_⟩
            intro _
            exact ⟨hc4, rfl, hd1⟩
          · rw [choice_neg hd1]
            refine ⟨NextEv.refl _, by simp, by simp, Or.inl rfl, by simp, ?_, by simp⟩
            intro _
            exact ⟨hc4, rfl⟩
        · rw [if_neg hc4] at h
          by_cases hc5 : ch = 123
          · rw [if_pos hc5] at h
            obtain ⟨rfl, rfl⟩ := retTok_inj h
            exact ⟨NextEv.refl _, by simp, by simp, Or.inl rfl, by simp, by simp, by simp⟩
          · rw [if_neg hc5] at h
            by_cases hc6 : ch = 91
            · rw [if_pos hc6] at h
              obtain ⟨rfl, rfl⟩ := retTok_inj h
              exact ⟨NextEv.refl _, by simp, by simp, Or.inl rfl, by simp, by simp, by simp⟩
            · rw [if_neg hc6] at h
              by_cases hc7 : ch = 40
              · rw [if_pos hc7] at h
                obtain ⟨rfl, rfl⟩ := retTok_inj h
                exact ⟨NextEv.refl _, by simp, by simp, Or.inl rfl, by simp, by simp, by simp⟩
              · rw [if_neg hc7] at h
                by_cases hc8 : ch = 45
                · rw [if_pos hc8] at h
                  by_cases hma : l.ch = 45
                  · rw [if_pos hma] at h
                    obtain ⟨rfl, rfl⟩ := retTok_inj h
                    exact ⟨NextEv.single _, by simp, by simp, Or.inl rfl, by simp, by simp, by simp⟩
                  · rw [if_neg hma] at h
                    by_cases hmb : l.ch = 61
                    · rw [if_pos hmb] at h
                      obtain ⟨rfl, rfl⟩ := retTok_inj h
                      exact ⟨NextEv.single _, by simp, by simp, Or.inl rfl, by simp, by simp, by simp⟩
                    · rw [if_neg hmb] at h
                      obtain ⟨rfl, rfl⟩ := retTok_inj h
                      exact ⟨NextEv.refl _, by simp, by simp, Or.inl rfl, by simp, by simp, by simp⟩
                · rw [if_neg hc8] at h
                  by_cases hc9 : ch = 37
                  · rw [if_pos hc9] at h
                    obtain ⟨rfl, rfl⟩ := retTok_inj h
                    by_cases hmo : l.ch = 61
                    · rw [choice_pos hmo]
                      exact ⟨NextEv.single _, by simp, by simp, Or.inl rfl, by simp, by simp, by simp⟩
                    · rw [choice_neg hmo]
                      exact ⟨NextEv.refl _, by simp, by simp, Or.inl rfl, by simp, by simp, by simp⟩
                  · rw [if_neg hc9] at h
                    by_cases hc10 : ch = 43
                    · rw [if_pos hc10] at h
                      by_cases hp1a : l.ch = 43
                      · rw [if_pos hp1a] at h
                        obtain ⟨rfl, rfl⟩ := retTok_inj h
                        exact ⟨NextEv.single _, by simp, by simp, Or.inl rfl, by simp, by simp, by simp⟩
                      · rw [if_neg hp1a] at h
                        by_cases hp1b : l.ch = 61
                        · rw [if_pos hp1b] at h
                          obtain ⟨rfl, rfl⟩ := retTok_inj h
                          exact ⟨NextEv.single _, by simp, by simp, Or.inl rfl, by simp, by simp, by simp⟩
                        · rw [if_neg hp1b] at h
                          obtain ⟨rfl, rfl⟩ := retTok_inj h
                          exact ⟨NextEv.refl _, by simp, by simp, Or.inl rfl, by simp, by simp, by simp⟩
                    · rw [if_neg hc10] at h
                      by_cases hc11 : ch = 125
                      · rw [if_pos hc11] at h
                        obtain ⟨rfl, rfl⟩ := retTok_inj h
                        exact ⟨NextEv.refl _, by simp, by simp, Or.inl rfl, by simp, by simp, by simp⟩
                      · rw [if_neg hc11] at h
                        by_cases hc12 : ch = 93
                        · rw [if_pos hc12] at h
                          obtain ⟨rfl, rfl⟩ := retTok_inj h
                          exact ⟨NextEv.refl _, by simp, by simp, Or.inl rfl, by simp, by simp, by simp⟩
                        · rw [if_neg hc12] at h
                          by_cases hc13 : ch = 41
                          · rw [if_pos hc13] at h
                            obtain ⟨rfl, rfl⟩ := retTok_inj h
                            exact ⟨NextEv.refl _, by simp, by simp, Or.inl rfl, by simp, by simp, by simp⟩
                          · rw [if_neg hc13] at h
                            by_cases hc14 : ch = 42
                            · rw [if_pos hc14] at h
                              by_cases hsta : l.ch = 42
                              · rw [if_pos hsta] at h
                                obtain ⟨rfl, rfl⟩ := retTok_inj h
                                by_cases hstc : (next l).ch = 61
                                · rw [choice_pos hstc]
                                  exact ⟨(NextEv.single _).trans (NextEv.single _), by simp, by simp, Or.inl rfl, by simp, by simp, by simp⟩
                                · rw [choice_neg hstc]
                                  exact ⟨NextEv.single _, by simp, by simp, Or.inl rfl, by simp, by simp, by simp⟩
                              · rw [if_neg hsta] at h
                                by_cases hstb : l.ch = 61
                                · rw [if_pos hstb] at h
                                  obtain ⟨rfl, rfl⟩ := retTok_inj h
                                  exact ⟨NextEv.single _, by simp, by simp, Or.inl rfl, by simp, by simp, by simp⟩
                                · rw [if_neg hstb] at h
                                  obtain ⟨rfl, rfl⟩ := retTok_inj h
                                  exact ⟨NextEv.refl _, by simp, by simp, Or.inl rfl, by simp, by simp, by simp⟩
                            · rw [if_neg hc14] at h
                              by_cases hc15 : ch = 61
                              · rw [if_pos hc15] at h
                                obtain ⟨rfl, rfl⟩ := retTok_inj h
                                by_cases heq : l.ch = 61
                                · rw [choice_pos heq]
                                  exact ⟨NextEv.single _, by simp, by simp, Or.inl rfl, by simp, by simp, by simp⟩
                                · rw [choice_neg heq]
                                  exact ⟨NextEv.refl _, by simp, by simp, Or.inl rfl, by simp, by simp, by simp⟩
                              · rw [if_neg hc15] at h
                                by_cases hc16 : ch = 94
                                · rw [if_pos hc16] at h
                                  obtain ⟨rfl, rfl⟩ := retTok_inj h
                                  by_cases hpw : l.ch = 61
                                  · rw [choice_pos hpw]
                                    exact ⟨NextEv.single _, by simp, by simp, Or.inl rfl, by simp, by simp, by simp⟩
                                  · rw [choice_neg hpw]
                                    exact ⟨NextEv.refl _, by simp, by simp, Or.inl rfl, by simp, by simp, by simp⟩
                                · rw [if_neg hc16] at h
                                  by_cases hc17 : ch = 33
                                  · rw [if_pos hc17] at h
                                    by_cases hnta : l.ch = 61
                                    · rw [if_pos hnta] at h
                                      obtain ⟨rfl, rfl⟩ := retTok_inj h
                                      exact ⟨NextEv.single _, by simp, by simp, Or.inl rfl, by simp, by simp, by simp⟩
                                    · rw [if_neg hnta] at h
                                      by_cases hntb : l.ch = 126
                                      · rw [if_pos hntb] at h
                                        obtain ⟨rfl, rfl⟩ := retTok_inj h
                                        exact ⟨NextEv.single _, by simp, by simp, Or.inl rfl, by simp, by simp, by simp⟩
                                      · rw [if_neg hntb] at h
                                        obtain ⟨rfl, rfl⟩ := retTok_inj h
                                        exact ⟨NextEv.refl _, by simp, by simp, Or.inl rfl, by simp, by simp, by simp⟩
                                  · rw [if_neg hc17] at h
                                    by_cases hc18 : ch = 60
                                    · rw [if_pos hc18] at h
                                      obtain ⟨rfl, rfl⟩ := retTok_inj h
                                      by_cases hls : l.ch = 61
                                      · rw [choice_pos hls]
                                        exact ⟨NextEv.single _, by simp, by simp, Or.inl rfl, by simp, by simp, by simp⟩
                                      · rw [choice_neg hls]
                                        exact ⟨NextEv.refl _, by simp, by simp, Or.inl rfl, by simp, by simp, by simp⟩
                                    · rw [if_neg hc18] at h
                                      by_cases hc19 : ch = 62
                                      · rw [if_pos hc19] at h
                                        by_cases hgta : l.ch = 61
                                        · rw [if_pos hgta] at h
                                          obtain ⟨rfl, rfl⟩ := retTok_inj h
                                          exact ⟨NextEv.single _, by simp, by simp, Or.inl rfl, by simp, by simp, by simp⟩
                                        · rw [if_neg hgta] at h
                                          by_cases hgtb : l.ch = 62
                                          · rw [if_pos hgtb] at h
                                            obtain ⟨rfl, rfl⟩ := retTok_inj h
                                            exact ⟨NextEv.single _, by simp, by simp, Or.inl rfl, by simp, by simp, by simp⟩
                                          · rw [if_neg hgtb] at h
                                            obtain ⟨rfl, rfl⟩ := retTok_inj h
                                            exact ⟨NextEv.refl _, by simp, by simp, Or.inl rfl, by simp, by simp, by simp⟩
                                      · rw [if_neg hc19] at h
                                        by_cases hc20 : ch = 126
                                        · rw [if_pos hc20] at h
                                          obtain ⟨rfl, rfl⟩ := retTok_inj h
                                          exact ⟨NextEv.refl _, by simp, by simp, Or.inl rfl, by simp, by simp, by simp⟩
                                        · rw [if_neg hc20] at h
                                          by_cases hc21 : ch = 63
                                          · rw [if_pos hc21] at h
                                            obtain ⟨rfl, rfl⟩ := retTok_inj h
                                            exact ⟨NextEv.refl _, by simp, by simp, Or.inl rfl, by simp, by simp, by simp⟩
                                          · rw [if_neg hc21] at h
                                            by_cases hc22 : ch = 59
                                            · rw [if_pos hc22] at h
                                              obtain ⟨rfl, rfl⟩ := retTok_inj h
                                              exact ⟨NextEv.refl _, by simp, by simp, Or.inl rfl, by simp, by simp, by simp⟩
                                            · rw [if_neg hc22] at h
                                              by_cases hc23 : ch = 36
                                              · rw [if_pos hc23] at h
                                                obtain ⟨rfl, rfl⟩ := retTok_inj h
                                                exact ⟨NextEv.refl _, by simp, by simp, Or.inl rfl, by simp, by simp, by simp⟩
                                              · rw [if_neg hc23] at h
                                                by_cases hc24 : ch = 38
                                                · rw [if_pos hc24] at h
                                                  by_cases haa : l.ch = 38
                                                  · rw [choice_pos haa] at h
                                                    dsimp only at h
                                                    rw [if_neg (by decide : ¬ (Tok.AND = Tok.ILLEGAL))] at h
                                                    obtain ⟨rfl, rfl⟩ := retTok_inj h
                                                    exact ⟨NextEv.single _, by simp, by simp, Or.inl rfl, by simp, by simp, by simp⟩
                                                  · rw [choice_neg haa] at h
                                                    dsimp only at h
                                                    rw [if_pos rfl] at h
                                                    simp only [Option.some.injEq, Prod.mk.injEq] at h
                                                    obtain ⟨h1, h2⟩ := h
                                                    rw [← h1, ← h2]
                                                    refine ⟨NextEv.refl _, by simp, by simp, Or.inr rfl, ?_, by simp, by simp⟩
                                                    intro _
                                                    exact string_append_ne_empty_left _ _ (string_append_ne_empty_left _ _ (by decide))
                                                · rw [if_neg hc24] at h
                                                  by_cases hc25 : ch = 124
                                                  · rw [if_pos hc25] at h
                                                    obtain ⟨rfl, rfl⟩ := retTok_inj h
                                                    by_cases hpi : l.ch = 124
                                                    · rw [choice_pos hpi]
                                                      exact ⟨NextEv.single _, by simp, by simp, Or.inl rfl, by simp, by simp, by simp⟩
                                                    · rw [choice_neg hpi]
                                                      exact ⟨NextEv.refl _, by simp, by simp, Or.inl rfl, by simp, by simp, by simp⟩
                                                  · rw [if_neg hc25] at h
                                                    by_cases hc26 : isDigitCh ch = true ∨ ch = 46
                                                    · rw [if_pos hc26] at h
                                                      have hev := scanNumber_ev h
                                                      rcases scanNumber_res h with ⟨ht, hp, hv, _, _⟩ | ⟨ht, hp⟩
                                                      · refine ⟨hev, by simp [ht], by simp [ht], Or.inr hp, fun _ => ?_, by simp [ht], by simp [ht]⟩
                                                        rw [hv]
                                                        decide
                                                      · exact ⟨hev, by simp [ht], by simp [ht], Or.inl hp, by simp [ht], by simp [ht], by simp [ht]⟩
                                                    · rw [if_neg hc26] at h
                                                      by_cases hc27 : ch = 34 ∨ ch = 39
                                                      · rw [if_pos hc27] at h
                                                        have hev := scanStr_ev h
                                                        rcases scanStr_res h with ⟨ht, hp⟩ | ⟨ht, hp, hv⟩
                                                        · exact ⟨hev, by simp [ht], by simp [ht], Or.inl hp, by simp [ht], by simp [ht], by simp [ht]⟩
                                                        · exact ⟨hev, by simp [ht], by simp [ht], Or.inr hp, fun _ => hv, by simp [ht], by simp [ht]⟩
                                                      · rw [if_neg hc27] at h
                                                        simp only [Option.some.injEq, Prod.mk.injEq] at h
                                                        obtain ⟨h1, h2⟩ := h
                                                        rw [← h1, ← h2]
                                                        refine ⟨NextEv.refl _, by simp, by simp, Or.inl rfl, ?_, by simp, by simp⟩
                                                        intro _
                                                        exact string_append_ne_empty_left _ _ (by decide)

/-! ## The whitespace loop and the scan pipeline -/

theorem set_hadSpace_idem (l : Lexer) :
    ({ { l with hadSpace := true } with hadSpace := true } : Lexer) =
      { l with hadSpace := true } := rfl

/-- Running `skipWS` is insensitive to a pre-set `hadSpace` once the first
iteration is entered. -/
theorem skipWS_set {fuel : Nat} {l : Lexer} (hw : wsChar l.ch) :
    skipWS fuel l = skipWS fuel { l with hadSpace := true } := by
  have hw' : wsChar ({ l with hadSpace := true } : Lexer).ch := hw
  cases fuel with
  | zero => rw [skipWS_zero hw, skipWS_zero hw']
  | succ n =>
    by_cases hb : l.ch = 92
    · rw [skipWS_succ_bs hw hb,
          skipWS_succ_bs hw' (show ({ l with hadSpace := true } : Lexer).ch = 92 from hb),
          set_hadSpace_idem]
    · rw [skipWS_succ_sp hw hb,
          skipWS_succ_sp hw' (show ({ l with hadSpace := true } : Lexer).ch ≠ 92 from hb),
          set_hadSpace_idem]

/-- The whitespace loop, entered with `hadSpace` already set: its output
state evolves by `next` steps, keeps `hadSpace` set, and an early return
carries the line-continuation error at the output state's position. -/
theorem skipWS_go : ∀ {fuel : Nat} {l : Lexer} {out},
    skipWS fuel l = some out → l.hadSpace = true →
    ∃ l', (out = Sum.inl l' ∨
           out = Sum.inr (l', ⟨l'.pos, Tok.ILLEGAL,
             "expected \\n after \\ line continuation"⟩)) ∧
      NextEv l l' ∧ l'.hadSpace = true := by
  intro fuel
  induction fuel with
  | zero =>
    intro l out h hsp
    by_cases hw : wsChar l.ch
    · rw [skipWS_zero hw] at h; exact absurd h (by simp)
    · rw [skipWS_exit hw] at h
      simp only [Option.some.injEq] at h
      subst h
      exact ⟨l, Or.inl rfl, NextEv.refl _, hsp⟩
  | succ n ih =>
    intro l out h hsp
    by_cases hw : wsChar l.ch
    · by_cases hb : l.ch = 92
      · rw [skipWS_succ_bs hw hb, set_hadSpace_self hsp] at h
        dsimp only at h
        by_cases h13 : (next l).ch = 13
        · rw [if_pos h13] at h
          by_cases h10 : (next (next l)).ch ≠ 10
          · rw [if_pos h10] at h
            simp only [Option.some.injEq] at h
            subst h
            exact ⟨next (next l), Or.inr rfl,
              (NextEv.single l).trans (NextEv.single (next l)), by simp [hsp]⟩
          · rw [if_neg h10] at h
            obtain ⟨l', hout, hev, hsp'⟩ := ih h (by simp [hsp])
            exact ⟨l', hout,
              (((NextEv.single l).trans (NextEv.single (next l))).trans
                (NextEv.single (next (next l)))).trans hev, hsp'⟩
        · rw [if_neg h13] at h
          by_cases h10 : (next l).ch ≠ 10
          · rw [if_pos h10] at h
            simp only [Option.some.injEq] at h
            subst h
            exact ⟨next l, Or.inr rfl, NextEv.single l, by simp [hsp]⟩
          · rw [if_neg h10] at h
            obtain ⟨l', hout, hev, hsp'⟩ := ih h (by simp [hsp])
            exact ⟨l', hout,
              ((NextEv.single l).trans (NextEv.single (next l))).trans hev, hsp'⟩
      · rw [skipWS_succ_sp hw hb, set_hadSpace_self hsp] at h
        obtain ⟨l', hout, hev, hsp'⟩ := ih h (by simp [hsp])
        exact ⟨l', hout, (NextEv.single l).trans hev, hsp'⟩
    · rw [skipWS_exit hw] at h
      simp only [Option.some.injEq] at h
      subst h
      exact ⟨l, Or.inl rfl, NextEv.refl _, hsp⟩

/-- Characterization of the whitespace loop from an arbitrary entry state. -/
theorem skipWS_main {fuel : Nat} {l : Lexer} {out}
    (h : skipWS fuel l = some out) :
    (¬ wsChar l.ch ∧ out = Sum.inl l) ∨
    (wsChar l.ch ∧
      ∃ l', (out = Sum.inl l' ∨
             out = Sum.inr (l', ⟨l'.pos, Tok.ILLEGAL,
               "expected \\n after \\ line continuation"⟩)) ∧
        NextEv { l with hadSpace := true } l' ∧ l'.hadSpace = true) := by
  by_cases hw : wsChar l.ch
  · rw [skipWS_set hw] at h
    exact Or.inr ⟨hw, skipWS_go h rfl⟩
  · rw [skipWS_exit hw] at h
    simp only [Option.some.injEq] at h
    subst h
    exact Or.inl ⟨hw, rfl⟩

theorem keywordTokens_mem {s : String} {t : Tok}
    (h : keywordTokens s = some t) :
    t ≠ Tok.REGEX ∧ t ≠ Tok.EOF ∧ t ≠ Tok.ILLEGAL ∧ t ≠ Tok.DIV ∧
    t ≠ Tok.DIV_ASSIGN := by
  unfold keywordTokens at h
  cases hf : keywordList.find? (fun p => p.1 = s) with
  | none => rw [hf] at h; exact absurd h (by simp)
  | some pr =>
    rw [hf] at h
    simp only [Option.map_some', Option.some.injEq] at h
    have hmem : pr ∈ keywordList := List.mem_of_find?_eq_some hf
    have hmem2 : t ∈ keywordList.map Prod.snd := by
      rw [← h]
      exact List.mem_map_of_mem Prod.snd hmem
    have hall : ∀ x ∈ keywordList.map Prod.snd,
        x ≠ Tok.REGEX ∧ x ≠ Tok.EOF ∧ x ≠ Tok.ILLEGAL ∧ x ≠ Tok.DIV ∧
        x ≠ Tok.DIV_ASSIGN := by decide
    exact hall t hmem2


/-- One pass through the core of `scan` (after whitespace and comments). -/
theorem scanCore_main {fuel : Nat} {l l' : Lexer} {r : ScanRes}
    (h : scanCore fuel l = some (l', r)) (hInv : StateInv l) :
    NextEv l l' ∧
    r.tok ≠ Tok.REGEX ∧
    (1 ≤ r.pos.Line ∧ 1 ≤ r.pos.Column) ∧
    (r.tok = Tok.DIV → 2 ≤ l'.pos.Column) ∧
    (r.tok = Tok.DIV_ASSIGN → 3 ≤ l'.pos.Column) ∧
    (r.tok = Tok.ILLEGAL → r.val ≠ "") ∧
    (r.tok = Tok.EOF → (l'.errorMsg = "" ∧ l'.ch < 0)) := by
  obtain ⟨⟨hpl, hpc⟩, ⟨hnl, hnc⟩, hrel, _, _⟩ := id hInv
  unfold scanCore at h
  dsimp only at h
  by_cases h0 : l.ch < 0
  · rw [if_pos h0] at h
    by_cases he : l.errorMsg ≠ ""
    · rw [if_pos he] at h
      simp only [Option.some.injEq, Prod.mk.injEq] at h
      obtain ⟨h1, h2⟩ := h
      rw [← h1, ← h2]
      exact ⟨NextEv.refl _, by simp, ⟨hpl, hpc⟩, by simp, by simp,
        fun _ => he, by simp⟩
    · rw [if_neg he] at h
      simp only [Option.some.injEq, Prod.mk.injEq] at h
      obtain ⟨h1, h2⟩ := h
      rw [← h1, ← h2]
      refine ⟨NextEv.refl _, by simp, ⟨hpl, hpc⟩, by simp, by simp, by simp,
        fun _ => ⟨?_, h0⟩⟩
      push_neg at he
      exact he
  · rw [if_neg h0] at h
    by_cases hn : isNameStart l.ch = true
    · rw [if_pos hn] at h
      cases hnl2 : scanNameLoop fuel (next l) with
      | none => rw [hnl2] at h; exact absurd h (by simp)
      | some p =>
        obtain ⟨rs, l3⟩ := p
        rw [hnl2] at h
        dsimp only at h
        have hev : NextEv l l3 :=
          (NextEv.single l).trans (scanNameLoop_ev hnl2)
        cases hkw : keywordTokens (runesToString (l.ch :: rs)) with
        | none =>
          rw [hkw] at h
          simp only [Option.some.injEq, Prod.mk.injEq] at h
          obtain ⟨h1, h2⟩ := h
          rw [← h1, ← h2]
          exact ⟨hev, by simp, ⟨hpl, hpc⟩, by simp, by simp, by simp, by simp⟩
        | some tok =>
          rw [hkw] at h
          simp only [Option.some.injEq, Prod.mk.injEq] at h
          obtain ⟨h1, h2⟩ := h
          rw [← h1, ← h2]
          obtain ⟨k1, k2, k3, k4, k5⟩ := keywordTokens_mem hkw
          exact ⟨hev, by simp [k1], ⟨hpl, hpc⟩, by simp [k4], by simp [k5],
            by simp [k3], by simp [k2]⟩
    · rw [if_neg hn] at h
      obtain ⟨hev, hnr, hne, hpos, hill, hdiv, hdiva⟩ := scanSwitch_main h
      have hInv2 : StateInv (next l) := stateInv_next hInv
      have hInv3 : StateInv l' := hev.stateInv hInv2
      refine ⟨(NextEv.single l).trans hev, hnr, ?_, ?_, ?_, hill, by simp [hne]⟩
      · rcases hpos with hp | hp
        · rw [hp]; exact ⟨hpl, hpc⟩
        · rw [hp]; exact ⟨hInv3.1.1, hInv3.1.2⟩
      · intro hd
        obtain ⟨hch, hl⟩ := hdiv hd
        rw [hl]
        obtain ⟨hp2, _, hc2⟩ := next_cases l
        rw [hp2, hrel (by omega)]
        rw [if_neg (by rw [hch]; norm_num)]
        simpa using by omega
      · intro hd
        obtain ⟨hch, hl, h61⟩ := hdiva hd
        rw [hl]
        obtain ⟨hp2, _, _⟩ := next_cases (next l)
        rw [hp2]
        obtain ⟨hrel2⟩ := And.intro hInv2.2.2.1 True.intro
        rw [hrel2 (by omega)]
        rw [if_neg (by rw [h61]; norm_num)]
        obtain ⟨hp1, _, _⟩ := next_cases l
        have : (next l).pos = l.nextPos := hp1
        rw [show (next l).pos.Column = l.nextPos.Column from by rw [this]]
        rw [hrel (by omega), if_neg (by rw [hch]; norm_num)]
        simpa using by omega

/-- Comment skipping plus the core. -/
theorem scanAfterWS_main {fuel : Nat} {l l' : Lexer} {r : ScanRes}
    (h : scanAfterWS fuel l = some (l', r)) (hInv : StateInv l) :
    NextEv l l' ∧
    r.tok ≠ Tok.REGEX ∧
    (1 ≤ r.pos.Line ∧ 1 ≤ r.pos.Column) ∧
    (r.tok = Tok.DIV → 2 ≤ l'.pos.Column) ∧
    (r.tok = Tok.DIV_ASSIGN → 3 ≤ l'.pos.Column) ∧
    (r.tok = Tok.ILLEGAL → r.val ≠ "") ∧
    (r.tok = Tok.EOF → (l'.errorMsg = "" ∧ l'.ch < 0)) := by
  unfold scanAfterWS at h
  by_cases hc : l.ch = 35
  · rw [if_pos hc] at h
    cases hcm : skipComment fuel (next l) with
    | none => rw [hcm] at h; exact absurd h (by simp)
    | some l1 =>
      rw [hcm] at h
      have hev1 : NextEv l l1 := (NextEv.single l).trans (skipComment_ev hcm)
      obtain ⟨hev2, rest⟩ := scanCore_main h (hev1.stateInv hInv)
      exact ⟨hev1.trans hev2, rest⟩
  · rw [if_neg hc] at h
    exact scanCore_main h hInv

/-- The master lemma for one `scan` call. -/
theorem scanF_main {fuel : Nat} {l l' : Lexer} {r : ScanRes}
    (h : scanF fuel l = some (l', r)) (hInv : StateInv l) :
    StateInv l' ∧ l'.src = l.src ∧ (BadUTF l → BadUTF l') ∧
    l'.hadSpace = decide (wsChar l.ch) ∧
    r.tok ≠ Tok.REGEX ∧
    (1 ≤ r.pos.Line ∧ 1 ≤ r.pos.Column) ∧
    (r.tok = Tok.DIV → 2 ≤ l'.pos.Column) ∧
    (r.tok = Tok.DIV_ASSIGN → 3 ≤ l'.pos.Column) ∧
    (r.tok = Tok.ILLEGAL → r.val ≠ "") ∧
    (r.tok = Tok.EOF → (l'.errorMsg = "" ∧ l'.ch < 0)) := by
  unfold scanF at h
  cases hws : skipWS fuel { l with hadSpace := false } with
  | none => rw [hws] at h; exact absurd h (by simp)
  | some out =>
    rw [hws] at h
    rcases skipWS_main hws with ⟨hnw, rfl⟩ | ⟨hw, mid, hout, hev0, hsp⟩
    · dsimp only at h
      have hInv0 : StateInv ({ l with hadSpace := false } : Lexer) :=
        stateInv_hs false hInv
      obtain ⟨hev, hrest⟩ := scanAfterWS_main h hInv0
      have hnw' : ¬ wsChar l.ch := hnw
      refine ⟨hev.stateInv hInv0, by rw [hev.src_eq], ?_, ?_, hrest⟩
      · intro hb
        exact hev.badUTF (badUTF_hs false hb)
      · rw [hev.hadSpace_eq]
        simp [hnw']
    · have hw' : wsChar l.ch := hw
      have hInv1 : StateInv mid :=
        hev0.stateInv (stateInv_hs true hInv)
      have hsrc1 : mid.src = l.src := hev0.src_eq
      have hbad1 : BadUTF l → BadUTF mid :=
        fun hb => hev0.badUTF (badUTF_hs true hb)
      rcases hout with rfl | rfl
      · dsimp only at h
        obtain ⟨hev, hrest⟩ := scanAfterWS_main h hInv1
        refine ⟨hev.stateInv hInv1, by rw [hev.src_eq, hsrc1], ?_, ?_, hrest⟩
        · intro hb
          exact hev.badUTF (hbad1 hb)
        · rw [hev.hadSpace_eq, hsp]
          simp [hw']
      · dsimp only at h
        simp only [Option.some.injEq, Prod.mk.injEq] at h
        obtain ⟨h1, h2⟩ := h
        rw [← h1, ← h2]
        refine ⟨hInv1, hsrc1, hbad1, by rw [hsp]; simp [hw'], by simp,
          ⟨hInv1.1.1, hInv1.1.2⟩, by simp, by simp, fun _ => ?_, by simp⟩
        exact (by decide :
          ("expected \\n after \\ line continuation" : String) ≠ "")

/-! ## The full `Scan`/`ScanRegex` calls and reachability -/

/-- The lexer invariant maintained across `Scan`/`ScanRegex` calls: the
state invariant, plus a lower bound on the current column after a `DIV` or
`DIV_ASSIGN` token (they consume one resp. two characters on the current
line, making the `ScanRegex` column rewind safe). -/
def LexInv (l : Lexer) : Prop :=
  StateInv l ∧ (l.lastTok = Tok.DIV → 2 ≤ l.pos.Column) ∧
  (l.lastTok = Tok.DIV_ASSIGN → 3 ≤ l.pos.Column)

theorem stateInv_lastTok {l : Lexer} (t : Tok) (h : StateInv l) :
    StateInv { l with lastTok := t } := h

theorem badUTF_lastTok {l : Lexer} (t : Tok) (h : BadUTF l) :
    BadUTF { l with lastTok := t } := h

theorem newLexer_stateInv (bs : List Nat) : StateInv (newLexer bs) :=
  stateInv_next_of_nextPos (by constructor <;> norm_num)

theorem newLexer_lastTok (bs : List Nat) :
    (newLexer bs).lastTok = Tok.ILLEGAL := by
  unfold newLexer
  rw [next_lastTok]

theorem newLexer_src (bs : List Nat) : (newLexer bs).src = bs := by
  unfold newLexer
  rw [next_src]

/-- The master lemma for one `Scan` call (the wrapper recording `lastTok`). -/
theorem ScanF_main {fuel : Nat} {l l' : Lexer} {r : ScanRes}
    (h : ScanF fuel l = some (l', r)) (hInv : LexInv l) :
    LexInv l' ∧ l'.src = l.src ∧ (BadUTF l → BadUTF l') ∧
    l'.hadSpace = decide (wsChar l.ch) ∧
    r.tok ≠ Tok.REGEX ∧
    (1 ≤ r.pos.Line ∧ 1 ≤ r.pos.Column) ∧
    (r.tok = Tok.ILLEGAL → r.val ≠ "") ∧
    (r.tok = Tok.EOF → (l'.errorMsg = "" ∧ l'.ch < 0)) ∧
    l'.lastTok = r.tok := by
  unfold ScanF at h
  cases hs : scanF fuel l with
  | none => rw [hs] at h; exact absurd h (by simp)
  | some p =>
    obtain ⟨l0, r0⟩ := p
    rw [hs] at h
    simp only [Option.some.injEq, Prod.mk.injEq] at h
    obtain ⟨h1, h2⟩ := h
    obtain ⟨hsi, hsrc, hbad, hhs, hnr, hposok, hdiv, hdiva, hill, heof⟩ :=
      scanF_main hs hInv.1
    rw [← h1, ← h2]
    exact ⟨⟨hsi, fun ht => hdiv ht, fun ht => hdiva ht⟩, hsrc, hbad, hhs,
      hnr, hposok, hill, heof, rfl⟩

/-- The master lemma for one `scanRegex` call. -/
theorem scanRegexF_main {fuel : Nat} {l l' : Lexer} {r : ScanRes}
    (h : scanRegexF fuel l = some (l', r)) (hInv : LexInv l) :
    StateInv l' ∧ l'.src = l.src ∧ (BadUTF l → BadUTF l') ∧
    (1 ≤ r.pos.Line ∧ 1 ≤ r.pos.Column) ∧
    r.tok ≠ Tok.DIV ∧ r.tok ≠ Tok.DIV_ASSIGN := by
  obtain ⟨hsi, hc2, hc3⟩ := hInv
  unfold scanRegexF at h
  split_ifs at h with hd1 hd2
  · have hev := regexLoop_ev h
    have hsi' := hev.stateInv hsi
    rcases regexLoop_res h with ⟨ht, hp, _, _⟩ | ⟨ht, hp, _⟩
    · refine ⟨hsi', hev.src_eq, fun hb => hev.badUTF hb, ?_, by simp [ht],
        by simp [ht]⟩
      rw [hp]
      exact ⟨hsi.1.1, by have := hc2 hd1; simp; omega⟩
    · refine ⟨hsi', hev.src_eq, fun hb => hev.badUTF hb, ?_, by simp [ht],
        by simp [ht]⟩
      rw [hp]
      exact ⟨hsi'.1.1, hsi'.1.2⟩
  · have hev := regexLoop_ev h
    have hsi' := hev.stateInv hsi
    rcases regexLoop_res h with ⟨ht, hp, _, _⟩ | ⟨ht, hp, _⟩
    · refine ⟨hsi', hev.src_eq, fun hb => hev.badUTF hb, ?_, by simp [ht],
        by simp [ht]⟩
      rw [hp]
      exact ⟨hsi.1.1, by have := hc3 hd2; simp; omega⟩
    · refine ⟨hsi', hev.src_eq, fun hb => hev.badUTF hb, ?_, by simp [ht],
        by simp [ht]⟩
      rw [hp]
      exact ⟨hsi'.1.1, hsi'.1.2⟩
  · simp only [Option.some.injEq, Prod.mk.injEq] at h
    obtain ⟨h1, h2⟩ := h
    rw [← h1, ← h2]
    exact ⟨hsi, rfl, fun hb => hb, ⟨hsi.1.1, hsi.1.2⟩, by simp, by simp⟩

/-- The master lemma for one `ScanRegex` call. -/
theorem ScanRegexF_main {fuel : Nat} {l l' : Lexer} {r : ScanRes}
    (h : ScanRegexF fuel l = some (l', r)) (hInv : LexInv l) :
    LexInv l' ∧ l'.src = l.src ∧ (BadUTF l → BadUTF l') ∧
    (1 ≤ r.pos.Line ∧ 1 ≤ r.pos.Column) := by
  unfold ScanRegexF at h
  cases hs : scanRegexF fuel l with
  | none => rw [hs] at h; exact absurd h (by simp)
  | some p =>
    obtain ⟨l0, r0⟩ := p
    rw [hs] at h
    simp only [Option.some.injEq, Prod.mk.injEq] at h
    obtain ⟨h1, h2⟩ := h
    obtain ⟨hsi, hsrc, hbad, hposok, hnd, hnda⟩ := scanRegexF_main hs hInv
    rw [← h1, ← h2]
    exact ⟨⟨hsi, fun ht => absurd ht hnd, fun ht => absurd ht hnda⟩,
      hsrc, hbad, hposok⟩

/-- Every reachable lexer state satisfies the invariant and keeps the
original source. -/
theorem reachable_inv {bs : List Nat} {l : Lexer} (h : Reachable bs l) :
    LexInv l ∧ l.src = bs := by
  induction h with
  | base =>
    refine ⟨⟨newLexer_stateInv bs, ?_, ?_⟩, newLexer_src bs⟩ <;>
      intro ht <;> rw [newLexer_lastTok bs] at ht <;> exact absurd ht (by simp)
  | scan _ hs ih =>
    obtain ⟨hinv, hsrc, _⟩ := ScanF_main hs ih.1
    exact ⟨hinv, by rw [hsrc, ih.2]⟩
  | regex _ hs ih =>
    obtain ⟨hinv, hsrc, _⟩ := ScanRegexF_main hs ih.1
    exact ⟨hinv, by rw [hsrc, ih.2]⟩

/-! ## Dispatch equations and auxiliary facts for the claims -/

theorem next_set_hadSpace (l : Lexer) (b : Bool) :
    next { l with hadSpace := b } = { next l with hadSpace := b } := by
  unfold next
  dsimp only
  split_ifs <;> rfl

theorem not_wsChar_hs {l : Lexer} {b : Bool} (h : ¬ wsChar l.ch) :
    ¬ wsChar ({ l with hadSpace := b } : Lexer).ch := h

/-- When the first character is not whitespace, not `#`, not end of input
and not a name start, `scan` goes straight to the switch. -/
theorem scanF_dispatch {fuel : Nat} {l : Lexer} (hw : ¬ wsChar l.ch)
    (hc : l.ch ≠ 35) (h0 : ¬ l.ch < 0) (hn : ¬ isNameStart l.ch = true) :
    scanF fuel l = scanSwitch fuel l.pos l.ch (next { l with hadSpace := false }) := by
  unfold scanF scanAfterWS scanCore
  rw [skipWS_exit (not_wsChar_hs hw)]
  dsimp only
  rw [if_neg hc]
  dsimp only
  rw [if_neg h0, if_neg hn]

theorem scanCore_ev {fuel : Nat} {l l' : Lexer} {r : ScanRes}
    (h : scanCore fuel l = some (l', r)) : NextEv l l' := by
  unfold scanCore at h
  dsimp only at h
  by_cases h0 : l.ch < 0
  · rw [if_pos h0] at h
    split_ifs at h <;>
      (simp only [Option.some.injEq, Prod.mk.injEq] at h
       rw [← h.1]
       exact NextEv.refl _)
  · rw [if_neg h0] at h
    by_cases hn : isNameStart l.ch = true
    · rw [if_pos hn] at h
      cases hnl : scanNameLoop fuel (next l) with
      | none => rw [hnl] at h; exact absurd h (by simp)
      | some p =>
        obtain ⟨rs, l3⟩ := p
        rw [hnl] at h
        dsimp only at h
        have hev : NextEv l l3 := (NextEv.single l).trans (scanNameLoop_ev hnl)
        cases hkw : keywordTokens (runesToString (l.ch :: rs)) with
        | none =>
          rw [hkw] at h
          simp only [Option.some.injEq, Prod.mk.injEq] at h
          rw [← h.1]
          exact hev
        | some tok =>
          rw [hkw] at h
          simp only [Option.some.injEq, Prod.mk.injEq] at h
          rw [← h.1]
          exact hev
    · rw [if_neg hn] at h
      exact (NextEv.single l).trans (scanSwitch_main h).1

theorem scanAfterWS_ev {fuel : Nat} {l l' : Lexer} {r : ScanRes}
    (h : scanAfterWS fuel l = some (l', r)) : NextEv l l' := by
  unfold scanAfterWS at h
  by_cases hc : l.ch = 35
  · rw [if_pos hc] at h
    cases hcm : skipComment fuel (next l) with
    | none => rw [hcm] at h; exact absurd h (by simp)
    | some l1 =>
      rw [hcm] at h
      exact ((NextEv.single l).trans (skipComment_ev hcm)).trans (scanCore_ev h)
  · rw [if_neg hc] at h
    exact scanCore_ev h

/-- After any completed `scan`, `hadSpace` records exactly whether the call
began at a space, tab, carriage return or backslash. -/
theorem scanF_hadSpace {fuel : Nat} {l l' : Lexer} {r : ScanRes}
    (h : scanF fuel l = some (l', r)) :
    l'.hadSpace = decide (wsChar l.ch) := by
  unfold scanF at h
  cases hws : skipWS fuel { l with hadSpace := false } with
  | none => rw [hws] at h; exact absurd h (by simp)
  | some out =>
    rw [hws] at h
    rcases skipWS_main hws with ⟨hnw, rfl⟩ | ⟨hw, mid, hout, hev0, hsp⟩
    · dsimp only at h
      have hnw' : ¬ wsChar l.ch := hnw
      rw [(scanAfterWS_ev h).hadSpace_eq]
      simp [hnw']
    · have hw' : wsChar l.ch := hw
      rcases hout with rfl | rfl
      · dsimp only at h
        rw [(scanAfterWS_ev h).hadSpace_eq, hsp]
        simp [hw']
      · dsimp only at h
        simp only [Option.some.injEq, Prod.mk.injEq] at h
        rw [← h.1, hsp]
        simp [hw']

theorem ScanF_hadSpace {fuel : Nat} {l l' : Lexer} {r : ScanRes}
    (h : ScanF fuel l = some (l', r)) :
    l'.hadSpace = decide (wsChar l.ch) := by
  unfold ScanF at h
  cases hs : scanF fuel l with
  | none => rw [hs] at h; exact absurd h (by simp)
  | some p =>
    obtain ⟨l0, r0⟩ := p
    rw [hs] at h
    simp only [Option.some.injEq, Prod.mk.injEq] at h
    have hres := scanF_hadSpace hs
    rw [← h.1]
    exact hres

/-- No `EOF` can be scanned while the remaining input is invalid. -/
theorem ScanF_noEOF {fuel : Nat} {l l' : Lexer} {r : ScanRes}
    (h : ScanF fuel l = some (l', r)) (hInv : LexInv l) (hb : BadUTF l) :
    r.tok ≠ Tok.EOF ∧ LexInv l' ∧ BadUTF l' := by
  obtain ⟨hinv', _, hbad, _, _, _, _, heof, _⟩ := ScanF_main h hInv
  have hb' : BadUTF l' := hbad hb
  refine ⟨?_, hinv', hb'⟩
  intro he
  obtain ⟨hmsg, hch⟩ := heof he
  rcases hinv'.1.2.2.2.2 hch with hne | hnil
  · exact hne hmsg
  · rcases hb' with hval | hne
    · rw [hnil] at hval
      exact absurd hval (by simp [utf8ValidList, utf8ValidAux])
    · exact hne hmsg

theorem newLexer_badUTF {bs : List Nat} (h : utf8ValidList bs = false) :
    BadUTF (newLexer bs) := by
  unfold newLexer
  apply badUTF_next
  left
  simpa using h

theorem getLast?_cons_ne {α : Type} (a : α) {l : List α} (h : l ≠ []) :
    (a :: l).getLast? = l.getLast? := by
  cases l with
  | nil => exact absurd rfl h
  | cons b t => rfl

/-- Driving `Scan` on an input whose remainder is invalid: the collected
tokens contain no `EOF` and the run ends in an `ILLEGAL` token with a
message. -/
theorem scanTokensF_bad : ∀ {fuel : Nat} {l : Lexer} {ts : List ScanRes},
    scanTokensF fuel l = some ts → LexInv l → BadUTF l →
    (∀ t ∈ ts, t.tok ≠ Tok.EOF) ∧
    ∃ last, ts.getLast? = some last ∧ last.tok = Tok.ILLEGAL ∧
      last.val ≠ "" := by
  intro fuel
  induction fuel with
  | zero => intro l ts h _ _; exact absurd h (by simp [scanTokensF])
  | succ n ih =>
    intro l ts h hInv hb
    unfold scanTokensF at h
    cases hs : ScanF (n + 1) l with
    | none => rw [hs] at h; exact absurd h (by simp)
    | some p =>
      obtain ⟨l1, r1⟩ := p
      rw [hs] at h
      dsimp only at h
      obtain ⟨hne, hInv1, hb1⟩ := ScanF_noEOF hs hInv hb
      obtain ⟨_, _, _, _, _, _, hill, _, _⟩ := ScanF_main hs hInv
      by_cases hc : r1.tok = Tok.EOF ∨ r1.tok = Tok.ILLEGAL
      · rw [if_pos hc] at h
        simp only [Option.some.injEq] at h
        subst h
        have hillegal : r1.tok = Tok.ILLEGAL := by tauto
        exact ⟨fun t ht => by simp at ht; rw [ht]; exact hne,
          ⟨r1, rfl, hillegal, hill hillegal⟩⟩
      · rw [if_neg hc] at h
        cases hrec : scanTokensF n l1 with
        | none => rw [hrec] at h; exact absurd h (by simp)
        | some ts1 =>
          rw [hrec] at h
          simp only [Option.some.injEq] at h
          subst h
          obtain ⟨hall, last, hlast, hltok, hlval⟩ := ih hrec hInv1 hb1
          have hts1 : ts1 ≠ [] := by
            intro hnil
            rw [hnil] at hlast
            exact absurd hlast (by simp)
          refine ⟨?_, last, ?_, hltok, hlval⟩
          · intro t ht
            rcases List.mem_cons.mp ht with rfl | hmem
            · exact hne
            · exact hall t hmem
          · rw [getLast?_cons_ne _ hts1]
            exact hlast

/-- The successful number case produces a `NUMBER` token whose text starts
with the dispatching character and has the number shape. -/
theorem scanNumber_shape {fuel : Nat} {pos : Position} {ch : Int}
    {l l' : Lexer} {r : ScanRes}
    (h : scanNumber fuel pos ch l = some (l', r))
    (hch : isDigitCh ch = true ∨ (ch = 46 ∧ isDigitCh l.ch = true)) :
    r.tok = Tok.NUMBER ∧
    ∃ rs, r.val = runesToString rs ∧ numberShape rs ∧ rs.head? = some ch := by
  unfold scanNumber at h
  split_ifs at h with h46
  · have hdig : isDigitCh ch = true := by
      rcases hch with hd | ⟨he, _⟩
      · exact hd
      · exact absurd he h46
    cases hd : scanDigits fuel l with
    | none => rw [hd] at h; exact absurd h (by simp)
    | some p =>
      obtain ⟨ds1, l1⟩ := p
      rw [hd] at h
      dsimp only at h
      have hds1 := (scanDigits_facts hd).1
      split_ifs at h with hdot
      · rcases scanNumberTail_res h with ⟨_, _, _, hg, _⟩ | hnum
        · exact absurd hg (by simp)
        · obtain ⟨ht, _, ds2, ep, hval, hds2, _, hep, _⟩ := hnum
          refine ⟨ht, (ch :: ds1) ++ (46 :: ds2) ++ ep, ?_, ?_, by simp⟩
          · rw [hval]
            congr 1
            simp
          · refine ⟨ch :: ds1, 46 :: ds2, ep, rfl, ?_, ?_, hep, ?_⟩
            · intro c hc
              rcases List.mem_cons.mp hc with rfl | hm
              · exact isDigitCh_iff.mp hdig
              · exact hds1 c hm
            · exact Or.inr ⟨ds2, rfl, hds2⟩
            · exact ⟨ch, by simp, isDigitCh_iff.mp hdig⟩
      · rcases scanNumberTail_res h with ⟨_, _, _, hg, _⟩ | hnum
        · exact absurd hg (by simp)
        · obtain ⟨ht, _, ds2, ep, hval, hds2, _, hep, _⟩ := hnum
          refine ⟨ht, (ch :: (ds1 ++ ds2)) ++ [] ++ ep, ?_, ?_, by simp⟩
          · rw [hval]
            congr 1
            simp
          · refine ⟨ch :: (ds1 ++ ds2), [], ep, rfl, ?_, Or.inl rfl, hep, ?_⟩
            · intro c hc
              rcases List.mem_cons.mp hc with rfl | hm
              · exact isDigitCh_iff.mp hdig
              · rcases List.mem_append.mp hm with hm1 | hm2
                · exact hds1 c hm1
                · exact hds2 c hm2
            · exact ⟨ch, by simp, isDigitCh_iff.mp hdig⟩
  · push_neg at h46
    have hldig : isDigitCh l.ch = true := by
      rcases hch with hd | ⟨_, hl⟩
      · rw [h46] at hd; exact absurd hd (by decide)
      · exact hl
    rcases scanNumberTail_res h with ⟨_, _, _, _, hnd⟩ | hnum
    · exact absurd hldig hnd
    · obtain ⟨ht, _, ds2, ep, hval, hds2, hg, hep, hne⟩ := hnum
      have hds2ne : ds2 ≠ [] := hne hldig
      obtain ⟨c0, hc0⟩ := List.exists_mem_of_ne_nil ds2 hds2ne
      refine ⟨ht, [] ++ (46 :: ds2) ++ ep, ?_, ?_, by simp [h46]⟩
      · rw [hval, h46]
        simp
      · refine ⟨[], 46 :: ds2, ep, rfl, by simp [digitsOnly],
          Or.inr ⟨ds2, rfl, hds2⟩, hep, ?_⟩
        exact ⟨c0, by simp [hc0], hds2 c0 hc0⟩


/-! ## Dispatch helpers shared by the claims -/

theorem scanSwitch_number {fuel : Nat} {pos : Position} {ch : Int}
    {l : Lexer} (h : isDigitCh ch = true ∨ ch = 46) :
    scanSwitch fuel pos ch l = scanNumber fuel pos ch l := by
  have hb : (48 ≤ ch ∧ ch ≤ 57) ∨ ch = 46 := by
    rcases h with h | h
    · exact Or.inl (isDigitCh_iff.mp h)
    · exact Or.inr h
  unfold scanSwitch
  rw [if_neg (show ¬ ch = 10 by omega),
      if_neg (show ¬ ch = 58 by omega),
      if_neg (show ¬ ch = 44 by omega),
      if_neg (show ¬ ch = 47 by omega),
      if_neg (show ¬ ch = 123 by omega),
      if_neg (show ¬ ch = 91 by omega),
      if_neg (show ¬ ch = 40 by omega),
      if_neg (show ¬ ch = 45 by omega),
      if_neg (show ¬ ch = 37 by omega),
      if_neg (show ¬ ch = 43 by omega),
      if_neg (show ¬ ch = 125 by omega),
      if_neg (show ¬ ch = 93 by omega),
      if_neg (show ¬ ch = 41 by omega),
      if_neg (show ¬ ch = 42 by omega),
      if_neg (show ¬ ch = 61 by omega),
      if_neg (show ¬ ch = 94 by omega),
      if_neg (show ¬ ch = 33 by omega),
      if_neg (show ¬ ch = 60 by omega),
      if_neg (show ¬ ch = 62 by omega),
      if_neg (show ¬ ch = 126 by omega),
      if_neg (show ¬ ch = 63 by omega),
      if_neg (show ¬ ch = 59 by omega),
      if_neg (show ¬ ch = 36 by omega),
      if_neg (show ¬ ch = 38 by omega),
      if_neg (show ¬ ch = 124 by omega),
      if_pos h]

theorem scanSwitch_string {fuel : Nat} {pos : Position} {ch : Int}
    {l : Lexer} (h : ch = 34 ∨ ch = 39) :
    scanSwitch fuel pos ch l = scanStr ch fuel [] l pos := by
  have hb : ch = 34 ∨ ch = 39 := h
  unfold scanSwitch
  rw [if_neg (show ¬ ch = 10 by omega),
      if_neg (show ¬ ch = 58 by omega),
      if_neg (show ¬ ch = 44 by omega),
      if_neg (show ¬ ch = 47 by omega),
      if_neg (show ¬ ch = 123 by omega),
      if_neg (show ¬ ch = 91 by omega),
      if_neg (show ¬ ch = 40 by omega),
      if_neg (show ¬ ch = 45 by omega),
      if_neg (show ¬ ch = 37 by omega),
      if_neg (show ¬ ch = 43 by omega),
      if_neg (show ¬ ch = 125 by omega),
      if_neg (show ¬ ch = 93 by omega),
      if_neg (show ¬ ch = 41 by omega),
      if_neg (show ¬ ch = 42 by omega),
      if_neg (show ¬ ch = 61 by omega),
      if_neg (show ¬ ch = 94 by omega),
      if_neg (show ¬ ch = 33 by omega),
      if_neg (show ¬ ch = 60 by omega),
      if_neg (show ¬ ch = 62 by omega),
      if_neg (show ¬ ch = 126 by omega),
      if_neg (show ¬ ch = 63 by omega),
      if_neg (show ¬ ch = 59 by omega),
      if_neg (show ¬ ch = 36 by omega),
      if_neg (show ¬ ch = 38 by omega),
      if_neg (show ¬ ch = 124 by omega),
      if_neg (show ¬ (isDigitCh ch = true ∨ ch = 46) by
        rcases hb with rfl | rfl <;> decide),
      if_pos h]

theorem ScanF_switch {fuel : Nat} {l : Lexer} (hw : ¬ wsChar l.ch)
    (hc : l.ch ≠ 35) (h0 : ¬ l.ch < 0) (hn : ¬ isNameStart l.ch = true) :
    ScanF fuel l =
      match scanSwitch fuel l.pos l.ch (next { l with hadSpace := false }) with
      | none => none
      | some (l1, r) => some ({ l1 with lastTok := r.tok }, r) := by
  unfold ScanF
  rw [scanF_dispatch hw hc h0 hn]

/-! ## The claims -/

/-- C3: Whenever `ScanRegex` is called: if the previously scanned token is
neither `DIV` nor `DIV_ASSIGN` it returns an `ILLEGAL` token; if it was
`DIV`, the returned `REGEX` position's column is rewound by 1; if it was
`DIV_ASSIGN`, by 2 and the regex text begins with `=`; in the two valid
cases the result is `REGEX` or `ILLEGAL`, and a `REGEX` result consumes
characters up to and including the first unescaped `/`. -/
theorem claim_C3 :
    (∀ (fuel : Nat) (l : Lexer),
       l.lastTok ≠ Tok.DIV → l.lastTok ≠ Tok.DIV_ASSIGN →
       ∃ v, ScanRegexF fuel l =
         some ({ l with lastTok := Tok.ILLEGAL }, ⟨l.pos, Tok.ILLEGAL, v⟩)) ∧
    (∀ (fuel : Nat) (l l' : Lexer) (r : ScanRes),
       (l.lastTok = Tok.DIV ∨ l.lastTok = Tok.DIV_ASSIGN) →
       ScanRegexF fuel l = some (l', r) →
       r.tok = Tok.REGEX ∨ r.tok = Tok.ILLEGAL) ∧
    (∀ (fuel : Nat) (l l' : Lexer) (r : ScanRes), l.lastTok = Tok.DIV →
       ScanRegexF fuel l = some (l', r) → r.tok = Tok.REGEX →
       r.pos = ⟨l.pos.Line, l.pos.Column - 1⟩) ∧
    (∀ (fuel : Nat) (l l' : Lexer) (r : ScanRes), l.lastTok = Tok.DIV_ASSIGN →
       ScanRegexF fuel l = some (l', r) → r.tok = Tok.REGEX →
       r.pos = ⟨l.pos.Line, l.pos.Column - 2⟩ ∧
       r.val.data.head? = some (Char.ofNat 61)) ∧
    (∀ (fuel : Nat) (l l' : Lexer) (r : ScanRes),
       (l.lastTok = Tok.DIV ∨ l.lastTok = Tok.DIV_ASSIGN) →
       ScanRegexF fuel l = some (l', r) → r.tok = Tok.REGEX →
       ∃ l0 : Lexer, l0.ch = 47 ∧ l' = { next l0 with lastTok := Tok.REGEX }) := by
  have hw : ∀ {fuel : Nat} {l l' : Lexer} {r : ScanRes},
      ScanRegexF fuel l = some (l', r) →
      ∃ l0, scanRegexF fuel l = some (l0, r) ∧ l' = { l0 with lastTok := r.tok } := by
    intro fuel l l' r h
    unfold ScanRegexF at h
    cases hs : scanRegexF fuel l with
    | none => rw [hs] at h; exact absurd h (by simp)
    | some p =>
      obtain ⟨l0, r0⟩ := p
      rw [hs] at h
      simp only [Option.some.injEq, Prod.mk.injEq] at h
      exact ⟨l0, by rw [← h.2], by rw [← h.1, ← h.2]⟩
  refine ⟨?_, ?_, ?_, ?_, ?_⟩
  · intro fuel l h1 h2
    refine ⟨"unexpected " ++ tokName l.lastTok ++ " preceding regex", ?_⟩
    unfold ScanRegexF scanRegexF
    rw [if_neg h1, if_neg h2]
  · intro fuel l l' r hd h
    obtain ⟨l0, hs, _⟩ := hw h
    unfold scanRegexF at hs
    split_ifs at hs with hd1 hd2
    · rcases regexLoop_res hs with ⟨ht, _⟩ | ⟨ht, _⟩
      · exact Or.inl ht
      · exact Or.inr ht
    · rcases regexLoop_res hs with ⟨ht, _⟩ | ⟨ht, _⟩
      · exact Or.inl ht
      · exact Or.inr ht
    · rcases hd with hd | hd
      · exact absurd hd hd1
      · exact absurd hd hd2
  · intro fuel l l' r hd h ht
    obtain ⟨l0, hs, _⟩ := hw h
    unfold scanRegexF at hs
    rw [if_pos hd] at hs
    rcases regexLoop_res hs with ⟨_, hp, _⟩ | ⟨hti, _⟩
    · exact hp
    · rw [ht] at hti; exact absurd hti (by simp)
  · intro fuel l l' r hd h ht
    obtain ⟨l0, hs, _⟩ := hw h
    unfold scanRegexF at hs
    rw [if_neg (by rw [hd]; simp), if_pos hd] at hs
    rcases regexLoop_res hs with ⟨_, hp, ⟨ext, hval⟩, _⟩ | ⟨hti, _⟩
    · refine ⟨hp, ?_⟩
      rw [hval]
      simp [runesToString]
    · rw [ht] at hti; exact absurd hti (by simp)
  · intro fuel l l' r hd h ht
    obtain ⟨l0, hs, hl'⟩ := hw h
    unfold scanRegexF at hs
    split_ifs at hs with hd1 hd2
    · rcases regexLoop_res hs with ⟨_, _, _, lc, hc, hnext⟩ | ⟨hti, _⟩
      · exact ⟨lc, hc, by rw [hl', hnext, ht]⟩
      · rw [ht] at hti; exact absurd hti (by simp)
    · rcases regexLoop_res hs with ⟨_, _, _, lc, hc, hnext⟩ | ⟨hti, _⟩
      · exact ⟨lc, hc, by rw [hl', hnext, ht]⟩
      · rw [ht] at hti; exact absurd hti (by simp)
    · rcases hd with hd | hd
      · exact absurd hd hd1
      · exact absurd hd hd2

/-- C3 witness: on `/a/`, after `Scan` returns `DIV`, `ScanRegex` returns
`REGEX` at the rewound column 1 with value `a`; on `/=a/`, after
`DIV_ASSIGN`, at column 1 with value `=a`; and with any other previous
token the result is `ILLEGAL`. -/
theorem claim_C3_witness :
    (∃ v, ScanRegexF 4 (newLexer [97]) =
       some ({ newLexer [97] with lastTok := Tok.ILLEGAL },
         ⟨(newLexer [97]).pos, Tok.ILLEGAL, v⟩)) ∧
    ((⟨⟨1, 1⟩, Tok.REGEX, "a"⟩ : ScanRes).pos =
       ⟨(⟨1, 2⟩ : Position).Line, (⟨1, 2⟩ : Position).Column - 1⟩) ∧
    ((⟨⟨1, 1⟩, Tok.REGEX, "=a"⟩ : ScanRes).pos =
       ⟨(⟨1, 3⟩ : Position).Line, (⟨1, 3⟩ : Position).Column - 2⟩ ∧
     (⟨⟨1, 1⟩, Tok.REGEX, "=a"⟩ : ScanRes).val.data.head? =
       some (Char.ofNat 61)) := by
  refine ⟨claim_C3.1 4 (newLexer [97]) (by decide) (by decide), ?_, ?_⟩
  · exact claim_C3.2.2.1 8
      ⟨[47, 97, 47], 2, 97, "", ⟨1, 2⟩, ⟨1, 3⟩, false, Tok.DIV⟩
      ⟨[47, 97, 47], 3, -1, "", ⟨1, 4⟩, ⟨1, 4⟩, false, Tok.REGEX⟩
      ⟨⟨1, 1⟩, Tok.REGEX, "a"⟩ rfl (by rfl) rfl
  · exact claim_C3.2.2.2.1 8
      ⟨[47, 61, 97, 47], 3, 97, "", ⟨1, 3⟩, ⟨1, 4⟩, false, Tok.DIV_ASSIGN⟩
      ⟨[47, 61, 97, 47], 4, -1, "", ⟨1, 5⟩, ⟨1, 5⟩, false, Tok.REGEX⟩
      ⟨⟨1, 1⟩, Tok.REGEX, "=a"⟩ rfl (by rfl) rfl

/-- C4 counterexample: in `/\␊a/` (a backslash-newline escape inside the
regex) a newline occurs before the closing slash, yet `ScanRegex` returns a
`REGEX` token (value backslash, newline, `a`), not `ILLEGAL`. -/
theorem claim_C4_cex :
    ((ScanF 8 (newLexer [47, 92, 10, 97, 47])).bind
       (fun p => (ScanRegexF 8 p.1).map (fun q => (q.2.tok, q.2.val)))) =
      some (Tok.REGEX, "\\\n" ++ "a") ∧
    Tok.REGEX ≠ Tok.ILLEGAL := by
  constructor
  · rfl
  · decide

/-- C4 (amended): in `ScanRegex`'s loop, `\/` contributes a single `/`,
any other `\x` contributes the backslash and `x` verbatim, and a carriage
return or newline encountered outside an escape (not immediately after a
backslash) yields `ILLEGAL`. -/
theorem claim_C4 :
    (∀ (fuel : Nat) (rs : List Int) (l : Lexer) (pos : Position),
       l.ch = 92 → (next l).ch = 47 →
       regexLoop (fuel + 1) rs l pos =
         regexLoop fuel (rs ++ [47]) (next (next l)) pos) ∧
    (∀ (fuel : Nat) (rs : List Int) (l : Lexer) (pos : Position) (x : Int),
       l.ch = 92 → (next l).ch = x → x ≠ 47 →
       regexLoop (fuel + 1) rs l pos =
         regexLoop fuel (rs ++ [92, x]) (next (next l)) pos) ∧
    (∀ (fuel : Nat) (rs : List Int) (l : Lexer) (pos : Position),
       l.ch = 13 ∨ l.ch = 10 →
       regexLoop fuel rs l pos =
         some (l, ⟨l.pos, Tok.ILLEGAL, "can't have newline in regex"⟩)) := by
  refine ⟨?_, ?_, ?_⟩
  · intro fuel rs l pos hb h47
    rw [regexLoop_esc (by rw [hb]; norm_num) (by rw [hb]; norm_num)
        (by rw [hb]; norm_num) hb]
    rw [if_neg (by rw [h47]; norm_num), h47]
  · intro fuel rs l pos x hb hx hx47
    rw [regexLoop_esc (by rw [hb]; norm_num) (by rw [hb]; norm_num)
        (by rw [hb]; norm_num) hb]
    rw [if_pos (by rw [hx]; exact hx47), hx]
    congr 1
    simp
  · intro fuel rs l pos h13
    exact regexLoop_nl (by rcases h13 with h | h <;> rw [h] <;> norm_num)
      (by rcases h13 with h | h <;> rw [h] <;> norm_num) h13

/-- C4 witness: concrete instances of the three amended clauses. -/
theorem claim_C4_witness :
    (regexLoop 3 [] ⟨[47], 0, 92, "", ⟨1, 1⟩, ⟨1, 2⟩, false, Tok.DIV⟩ ⟨1, 1⟩ =
       regexLoop 2 [47]
         (next (next ⟨[47], 0, 92, "", ⟨1, 1⟩, ⟨1, 2⟩, false, Tok.DIV⟩)) ⟨1, 1⟩) ∧
    (regexLoop 3 [] ⟨[98], 0, 92, "", ⟨1, 1⟩, ⟨1, 2⟩, false, Tok.DIV⟩ ⟨1, 1⟩ =
       regexLoop 2 [92, 98]
         (next (next ⟨[98], 0, 92, "", ⟨1, 1⟩, ⟨1, 2⟩, false, Tok.DIV⟩)) ⟨1, 1⟩) ∧
    (regexLoop 3 [] ⟨[], 0, 10, "", ⟨1, 1⟩, ⟨1, 1⟩, false, Tok.DIV⟩ ⟨1, 1⟩ =
       some (⟨[], 0, 10, "", ⟨1, 1⟩, ⟨1, 1⟩, false, Tok.DIV⟩,
         ⟨⟨1, 1⟩, Tok.ILLEGAL, "can't have newline in regex"⟩)) :=
  ⟨claim_C4.1 2 [] ⟨[47], 0, 92, "", ⟨1, 1⟩, ⟨1, 2⟩, false, Tok.DIV⟩ ⟨1, 1⟩
     rfl (by rfl),
   claim_C4.2.1 2 [] ⟨[98], 0, 92, "", ⟨1, 1⟩, ⟨1, 2⟩, false, Tok.DIV⟩ ⟨1, 1⟩
     98 rfl (by rfl) (by decide),
   claim_C4.2.2 3 [] ⟨[], 0, 10, "", ⟨1, 1⟩, ⟨1, 1⟩, false, Tok.DIV⟩ ⟨1, 1⟩
     (Or.inr rfl)⟩

/-- C5 counterexample: in `"\␊"` (a backslash-newline escape inside a
string literal) a newline occurs before the closing quote, yet `Scan`
returns a `STRING` token with value newline, not `ILLEGAL`. -/
theorem claim_C5_cex :
    (ScanF 8 (newLexer [34, 92, 10, 34])).map (fun p => (p.2.tok, p.2.val)) =
      some (Tok.STRING, "\n") ∧
    Tok.STRING ≠ Tok.ILLEGAL := by
  constructor
  · rfl
  · decide

/-- C5 (amended): in the double-quoted string loop, `\t`, `\r`, `\n`
translate to tab, carriage return, newline; any other escape `\x`
(including `\"` and `\\`) yields the raw character `x`; an unescaped
carriage return or newline yields `ILLEGAL`, and so does end of input
before the closing quote. -/
theorem claim_C5 :
    (∀ (fuel : Nat) (rs : List Int) (l : Lexer) (pos : Position),
       l.ch = 92 → (next l).ch = 116 →
       scanStr 34 (fuel + 1) rs l pos =
         scanStr 34 fuel (rs ++ [9]) (next (next l)) pos) ∧
    (∀ (fuel : Nat) (rs : List Int) (l : Lexer) (pos : Position),
       l.ch = 92 → (next l).ch = 114 →
       scanStr 34 (fuel + 1) rs l pos =
         scanStr 34 fuel (rs ++ [13]) (next (next l)) pos) ∧
    (∀ (fuel : Nat) (rs : List Int) (l : Lexer) (pos : Position),
       l.ch = 92 → (next l).ch = 110 →
       scanStr 34 (fuel + 1) rs l pos =
         scanStr 34 fuel (rs ++ [10]) (next (next l)) pos) ∧
    (∀ (fuel : Nat) (rs : List Int) (l : Lexer) (pos : Position) (x : Int),
       l.ch = 92 → (next l).ch = x → x ≠ 116 → x ≠ 114 → x ≠ 110 →
       scanStr 34 (fuel + 1) rs l pos =
         scanStr 34 fuel (rs ++ [x]) (next (next l)) pos) ∧
    (∀ (fuel : Nat) (rs : List Int) (l : Lexer) (pos : Position),
       l.ch = 13 ∨ l.ch = 10 →
       scanStr 34 fuel rs l pos =
         some (l, ⟨l.pos, Tok.ILLEGAL, "can't have newline in string"⟩)) ∧
    (∀ (fuel : Nat) (rs : List Int) (l : Lexer) (pos : Position),
       l.ch < 0 →
       scanStr 34 fuel rs l pos =
         some (l, ⟨l.pos, Tok.ILLEGAL, "didn't find end quote in string"⟩)) := by
  have hesc : ∀ (fuel : Nat) (rs : List Int) (l : Lexer) (pos : Position),
      l.ch = 92 →
      scanStr 34 (fuel + 1) rs l pos =
        scanStr 34 fuel
          (rs ++ [if (next l).ch = 116 then 9
                  else if (next l).ch = 114 then 13
                  else if (next l).ch = 110 then 10
                  else (next l).ch]) (next (next l)) pos := by
    intro fuel rs l pos hb
    exact scanStr_esc (by rw [hb]; norm_num) (by rw [hb]; norm_num)
      (by rw [hb]; norm_num) hb
  refine ⟨?_, ?_, ?_, ?_, ?_, ?_⟩
  · intro fuel rs l pos hb hx
    rw [hesc fuel rs l pos hb, if_pos hx]
  · intro fuel rs l pos hb hx
    rw [hesc fuel rs l pos hb, if_neg (by rw [hx]; norm_num), if_pos hx]
  · intro fuel rs l pos hb hx
    rw [hesc fuel rs l pos hb, if_neg (by rw [hx]; norm_num),
        if_neg (by rw [hx]; norm_num), if_pos hx]
  · intro fuel rs l pos x hb hx h1 h2 h3
    rw [hesc fuel rs l pos hb, if_neg (by rw [hx]; exact h1),
        if_neg (by rw [hx]; exact h2), if_neg (by rw [hx]; exact h3), hx]
  · intro fuel rs l pos h13
    exact scanStr_nl (by rcases h13 with h | h <;> rw [h] <;> norm_num)
      (by rcases h13 with h | h <;> rw [h] <;> norm_num) h13
  · intro fuel rs l pos h0
    exact scanStr_eof (by omega) h0

/-- C5 witness: concrete instances of the amended clauses. -/
theorem claim_C5_witness :
    (scanStr 34 3 [] ⟨[116], 0, 92, "", ⟨1, 2⟩, ⟨1, 3⟩, false, Tok.ILLEGAL⟩ ⟨1, 1⟩ =
       scanStr 34 2 [9]
         (next (next ⟨[116], 0, 92, "", ⟨1, 2⟩, ⟨1, 3⟩, false, Tok.ILLEGAL⟩)) ⟨1, 1⟩) ∧
    (scanStr 34 3 [] ⟨[34], 0, 92, "", ⟨1, 2⟩, ⟨1, 3⟩, false, Tok.ILLEGAL⟩ ⟨1, 1⟩ =
       scanStr 34 2 [34]
         (next (next ⟨[34], 0, 92, "", ⟨1, 2⟩, ⟨1, 3⟩, false, Tok.ILLEGAL⟩)) ⟨1, 1⟩) ∧
    (scanStr 34 3 [] ⟨[], 0, 10, "", ⟨1, 2⟩, ⟨1, 2⟩, false, Tok.ILLEGAL⟩ ⟨1, 1⟩ =
       some (⟨[], 0, 10, "", ⟨1, 2⟩, ⟨1, 2⟩, false, Tok.ILLEGAL⟩,
         ⟨⟨1, 2⟩, Tok.ILLEGAL, "can't have newline in string"⟩)) ∧
    (scanStr 34 3 [] ⟨[], 0, -1, "", ⟨1, 2⟩, ⟨1, 2⟩, false, Tok.ILLEGAL⟩ ⟨1, 1⟩ =
       some (⟨[], 0, -1, "", ⟨1, 2⟩, ⟨1, 2⟩, false, Tok.ILLEGAL⟩,
         ⟨⟨1, 2⟩, Tok.ILLEGAL, "didn't find end quote in string"⟩)) :=
  ⟨claim_C5.1 2 [] ⟨[116], 0, 92, "", ⟨1, 2⟩, ⟨1, 3⟩, false, Tok.ILLEGAL⟩ ⟨1, 1⟩
     rfl (by rfl),
   claim_C5.2.2.2.1 2 [] ⟨[34], 0, 92, "", ⟨1, 2⟩, ⟨1, 3⟩, false, Tok.ILLEGAL⟩
     ⟨1, 1⟩ 34 rfl (by rfl) (by decide) (by decide) (by decide),
   claim_C5.2.2.2.2.1 3 [] ⟨[], 0, 10, "", ⟨1, 2⟩, ⟨1, 2⟩, false, Tok.ILLEGAL⟩
     ⟨1, 1⟩ (Or.inr rfl),
   claim_C5.2.2.2.2.2 3 [] ⟨[], 0, -1, "", ⟨1, 2⟩, ⟨1, 2⟩, false, Tok.ILLEGAL⟩
     ⟨1, 1⟩ (by decide)⟩

/-- C1: `Scan` never returns a `REGEX` token on its own (for any reachable
lexer state); when it encounters a `/` it returns `DIV`, or `DIV_ASSIGN`
when the `/` is followed by `=`. -/
theorem claim_C1 :
    (∀ (bs : List Nat) (l : Lexer), Reachable bs l →
       ∀ (fuel : Nat) (l' : Lexer) (r : ScanRes),
         ScanF fuel l = some (l', r) → r.tok ≠ Tok.REGEX) ∧
    (∀ (fuel : Nat) (l : Lexer), l.ch = 47 →
       (ScanF fuel l).map (fun p => p.2.tok) =
         some (if (next l).ch = 61 then Tok.DIV_ASSIGN else Tok.DIV)) := by
  constructor
  · intro bs l hr fuel l' r h
    exact (ScanF_main h (reachable_inv hr).1).2.2.2.2.1
  · intro fuel l h47
    have hw : ¬ wsChar l.ch := by rw [h47]; decide
    have hc : l.ch ≠ 35 := by rw [h47]; decide
    have h0 : ¬ l.ch < 0 := by rw [h47]; decide
    have hn : ¬ isNameStart l.ch = true := by rw [h47]; decide
    rw [ScanF_switch hw hc h0 hn, next_set_hadSpace, h47]
    unfold scanSwitch
    rw [if_neg (by decide : ¬ (47 : Int) = 10),
        if_neg (by decide : ¬ (47 : Int) = 58),
        if_neg (by decide : ¬ (47 : Int) = 44),
        if_pos (rfl : (47 : Int) = 47)]
    dsimp only
    by_cases h61 : (next l).ch = 61
    · rw [choice_pos
        (show ({ next l with hadSpace := false } : Lexer).ch = 61 from h61),
        if_pos h61]
      rfl
    · rw [choice_neg
        (show ({ next l with hadSpace := false } : Lexer).ch ≠ 61 from h61),
        if_neg h61]
      rfl

/-- C1 witness: on `&a` the scanned token is not `REGEX`, and on `/a/` the
first token is `DIV`. -/
theorem claim_C1_witness :
    ((⟨⟨1, 2⟩, Tok.ILLEGAL, "unexpected 'a' after '&'"⟩ : ScanRes).tok ≠
       Tok.REGEX) ∧
    (ScanF 4 (newLexer [47, 97, 47])).map (fun p => p.2.tok) =
      some (if (next (newLexer [47, 97, 47])).ch = 61 then Tok.DIV_ASSIGN
            else Tok.DIV) :=
  ⟨claim_C1.1 [38, 97] (newLexer [38, 97]) Reachable.base 8
     ⟨[38, 97], 2, 97, "", ⟨1, 2⟩, ⟨1, 3⟩, false, Tok.ILLEGAL⟩
     ⟨⟨1, 2⟩, Tok.ILLEGAL, "unexpected 'a' after '&'"⟩ rfl,
   claim_C1.2 4 (newLexer [47, 97, 47]) rfl⟩

/-- C2 counterexample: when invoked without `-f` program files and without
arguments (the usage error), `main` goes through `errorExit` and the
process exit status is 1, not 2. -/
theorem claim_C2_cex :
    mainExitCode false true false true true true 0 = 1 ∧ (1 : Nat) ≠ 2 :=
  ⟨rfl, by decide⟩

/-- C2 (amended): the CLI process exits with the interpreter's exit status
(the argument of the AWK `exit` statement, 0 if none) on success, and with
status 1 on every error path — including the usage error, a parse error,
and a runtime error — since every failure goes through `errorExit`, which
calls `os.Exit(1)`. -/
theorem claim_C2 :
    (∀ (h p s a v e : Bool) (n : Nat),
       mainExitCode h p s a v e n = n ∨
       mainExitCode h p s a v e n = errorExitCode) ∧
    (∀ (srcReadOk parseOk varsOk execOk : Bool) (n : Nat),
       mainExitCode false srcReadOk false parseOk varsOk execOk n = 1) ∧
    (∀ (srcReadOk hasArgs varsOk execOk : Bool) (n : Nat),
       mainExitCode false srcReadOk hasArgs false varsOk execOk n = 1) ∧
    (∀ (srcReadOk hasArgs varsOk : Bool) (n : Nat),
       mainExitCode false srcReadOk hasArgs true varsOk false n = 1) ∧
    (∀ (n : Nat), mainExitCode true true true true true true n = n) ∧
    errorExitCode = 1 := by
  refine ⟨?_, ?_, ?_, ?_, ?_, rfl⟩
  · intro h p s a v e n
    unfold mainExitCode
    split_ifs <;> simp
  · intro p a v e n
    unfold mainExitCode errorExitCode
    cases a <;> simp
  · intro p s v e n
    unfold mainExitCode errorExitCode
    cases s <;> simp
  · intro p s v n
    unfold mainExitCode errorExitCode
    cases s <;> cases v <;> simp
  · intro n
    unfold mainExitCode
    simp

/-- C6: a `.` not followed by a digit yields `ILLEGAL` with message
`expected digits`; a token starting with a digit, or with `.` followed by a
digit, is a `NUMBER` whose text starts with that character and consists of
optional digits, an optional `.` with fractional digits, and an optional
`e`/`E` exponent with optional `+`/`-` sign (the `numberShape`
decomposition). -/
theorem claim_C6 :
    (∀ (fuel : Nat) (l l' : Lexer) (r : ScanRes),
       l.ch = 46 → ¬ isDigitCh (next l).ch = true →
       ScanF fuel l = some (l', r) →
       r.tok = Tok.ILLEGAL ∧ r.val = "expected digits") ∧
    (∀ (fuel : Nat) (l l' : Lexer) (r : ScanRes),
       (isDigitCh l.ch = true ∨ (l.ch = 46 ∧ isDigitCh (next l).ch = true)) →
       ScanF fuel l = some (l', r) →
       r.tok = Tok.NUMBER ∧
       ∃ rs, r.val = runesToString rs ∧ numberShape rs ∧
         rs.head? = some l.ch) := by
  constructor
  · intro fuel l l' r h46 hnd h
    have hw : ¬ wsChar l.ch := by rw [h46]; decide
    have hc : l.ch ≠ 35 := by rw [h46]; decide
    have h0 : ¬ l.ch < 0 := by rw [h46]; decide
    have hn : ¬ isNameStart l.ch = true := by rw [h46]; decide
    rw [ScanF_switch hw hc h0 hn,
        scanSwitch_number (Or.inr h46), next_set_hadSpace, h46] at h
    unfold scanNumber at h
    rw [if_neg (by decide : ¬ ((46 : Int) ≠ 46))] at h
    unfold scanNumberTail at h
    rw [scanDigits_exit
        (show ¬ isDigitCh ({ next l with hadSpace := false } : Lexer).ch = true
          from hnd)] at h
    dsimp only at h
    rw [if_pos (by decide : ¬ ((false = true) ∨ ([] : List Int) ≠ []))] at h
    dsimp only at h
    simp only [Option.some.injEq, Prod.mk.injEq] at h
    rw [← h.2]
    exact ⟨rfl, rfl⟩
  · intro fuel l l' r hch h
    have hb : (48 ≤ l.ch ∧ l.ch ≤ 57) ∨ l.ch = 46 := by
      rcases hch with hd | ⟨hd, _⟩
      · exact Or.inl (isDigitCh_iff.mp hd)
      · exact Or.inr hd
    have hw : ¬ wsChar l.ch := by unfold wsChar; omega
    have hc : l.ch ≠ 35 := by omega
    have h0 : ¬ l.ch < 0 := by omega
    have hn : ¬ isNameStart l.ch = true := by
      simp only [isNameStart, decide_eq_true_eq]
      omega
    have hnum : isDigitCh l.ch = true ∨ l.ch = 46 := by
      rcases hch with hd | ⟨hd, _⟩
      · exact Or.inl hd
      · exact Or.inr hd
    rw [ScanF_switch hw hc h0 hn, scanSwitch_number hnum] at h
    cases hsn : scanNumber fuel l.pos l.ch (next { l with hadSpace := false }) with
    | none => rw [hsn] at h; exact absurd h (by simp)
    | some p =>
      obtain ⟨l0, r0⟩ := p
      rw [hsn] at h
      dsimp only at h
      simp only [Option.some.injEq, Prod.mk.injEq] at h
      obtain ⟨_, h2⟩ := h
      rw [← h2]
      refine scanNumber_shape hsn ?_
      rcases hch with hd | ⟨hd, hdig⟩
      · exact Or.inl hd
      · refine Or.inr ⟨hd, ?_⟩
        rw [next_set_hadSpace]
        exact hdig

/-- C6 witness: `.x` scans to `ILLEGAL` with message `expected digits`, and
`1.5e+0` scans to a `NUMBER` with the number shape. -/
theorem claim_C6_witness :
    ((⟨⟨1, 2⟩, Tok.ILLEGAL, "expected digits"⟩ : ScanRes).tok = Tok.ILLEGAL ∧
     (⟨⟨1, 2⟩, Tok.ILLEGAL, "expected digits"⟩ : ScanRes).val =
       "expected digits") ∧
    ((⟨⟨1, 1⟩, Tok.NUMBER, "1.5e+0"⟩ : ScanRes).tok = Tok.NUMBER ∧
     ∃ rs, (⟨⟨1, 1⟩, Tok.NUMBER, "1.5e+0"⟩ : ScanRes).val = runesToString rs ∧
       numberShape rs ∧ rs.head? = some (newLexer [49, 46, 53, 101, 43, 48]).ch) :=
  ⟨claim_C6.1 8 (newLexer [46, 120])
     ⟨[46, 120], 2, 120, "", ⟨1, 2⟩, ⟨1, 3⟩, false, Tok.ILLEGAL⟩
     ⟨⟨1, 2⟩, Tok.ILLEGAL, "expected digits"⟩ rfl (by decide) rfl,
   claim_C6.2 8 (newLexer [49, 46, 53, 101, 43, 48])
     ⟨[49, 46, 53, 101, 43, 48], 6, -1, "", ⟨1, 7⟩, ⟨1, 7⟩, false, Tok.NUMBER⟩
     ⟨⟨1, 1⟩, Tok.NUMBER, "1.5e+0"⟩ (Or.inl (by decide)) rfl⟩

/-- C7 counterexample: on the input backslash-`x` (a backslash not followed
by a newline), `Scan` returns an `ILLEGAL` token — the line continuation
failed, and the input contains no space, tab, carriage return, or
newline — yet `HadSpace` afterwards is `true`. -/
theorem claim_C7_cex :
    (ScanF 8 (newLexer [92, 120])).map
        (fun p => (HadSpace p.1, p.2.tok, p.2.val)) =
      some (true, Tok.ILLEGAL, "expected \\n after \\ line continuation") ∧
    (∀ b ∈ [92, 120], b ≠ 32 ∧ b ≠ 9 ∧ b ≠ 13 ∧ b ≠ 10) :=
  ⟨rfl, by decide⟩

/-- C7 (amended): after each successful `Scan`, `HadSpace` returns `true`
if and only if the character at which the scan started (the first character
examined by the whitespace loop) was a space, tab, carriage return, or
backslash — i.e. the token was preceded by at least one whitespace-loop
character, whether or not a backslash actually completed a line
continuation. -/
theorem claim_C7 :
    ∀ (fuel : Nat) (l l' : Lexer) (r : ScanRes),
      ScanF fuel l = some (l', r) →
      (HadSpace l' = true ↔
        (l.ch = 32 ∨ l.ch = 9 ∨ l.ch = 13 ∨ l.ch = 92)) := by
  intro fuel l l' r h
  have hhs := ScanF_hadSpace h
  unfold HadSpace
  rw [hhs]
  simp [wsChar]

/-- C7 witness: scanning a single space then end of input leaves
`HadSpace` true, matching the space at the start of the scan. -/
theorem claim_C7_witness :
    HadSpace ⟨[32], 1, -1, "", ⟨1, 2⟩, ⟨1, 2⟩, true, Tok.EOF⟩ = true ↔
      ((newLexer [32]).ch = 32 ∨ (newLexer [32]).ch = 9 ∨
       (newLexer [32]).ch = 13 ∨ (newLexer [32]).ch = 92) :=
  claim_C7 8 (newLexer [32])
    ⟨[32], 1, -1, "", ⟨1, 2⟩, ⟨1, 2⟩, true, Tok.EOF⟩
    ⟨⟨1, 2⟩, Tok.EOF, ""⟩ rfl

/-- C8: from any reachable state, an `ILLEGAL` result of `Scan` carries a
nonempty message and a 1-based source position; and for an input whose
byte sequence is not valid UTF-8, driving `Scan` never yields `EOF`: the
token stream ends in an `ILLEGAL` token with a nonempty message. -/
theorem claim_C8 :
    (∀ (bs : List Nat) (l : Lexer), Reachable bs l →
       ∀ (fuel : Nat) (l' : Lexer) (r : ScanRes),
         ScanF fuel l = some (l', r) →
         (r.tok = Tok.ILLEGAL → r.val ≠ "") ∧
         (1 ≤ r.pos.Line ∧ 1 ≤ r.pos.Column)) ∧
    (∀ (bs : List Nat) (fuel : Nat) (ts : List ScanRes),
       utf8ValidList bs = false →
       scanTokensF fuel (newLexer bs) = some ts →
       (∀ t ∈ ts, t.tok ≠ Tok.EOF) ∧
       ∃ last, ts.getLast? = some last ∧ last.tok = Tok.ILLEGAL ∧
         last.val ≠ "") := by
  constructor
  · intro bs l hr fuel l' r h
    obtain ⟨_, _, _, _, _, hpos, hill, _, _⟩ :=
      ScanF_main h (reachable_inv hr).1
    exact ⟨hill, hpos⟩
  · intro bs fuel ts hval h
    exact scanTokensF_bad h (reachable_inv Reachable.base).1
      (newLexer_badUTF hval)

/-- C8 witness: on `&a` the `ILLEGAL` token's message is nonempty and its
position is 1-based; on the invalid UTF-8 input `0xff`, the token stream
is a single `ILLEGAL` token with a nonempty message and no `EOF`. -/
theorem claim_C8_witness :
    (((⟨⟨1, 2⟩, Tok.ILLEGAL, "unexpected 'a' after '&'"⟩ : ScanRes).tok =
        Tok.ILLEGAL →
      (⟨⟨1, 2⟩, Tok.ILLEGAL, "unexpected 'a' after '&'"⟩ : ScanRes).val ≠ "") ∧
     (1 ≤ (⟨⟨1, 2⟩, Tok.ILLEGAL, "unexpected 'a' after '&'"⟩ : ScanRes).pos.Line ∧
      1 ≤ (⟨⟨1, 2⟩, Tok.ILLEGAL, "unexpected 'a' after '&'"⟩ : ScanRes).pos.Column)) ∧
    ((∀ t ∈ [(⟨⟨1, 1⟩, Tok.ILLEGAL, "invalid UTF-8 byte 0xff"⟩ : ScanRes)],
        t.tok ≠ Tok.EOF) ∧
     ∃ last,
       ([(⟨⟨1, 1⟩, Tok.ILLEGAL, "invalid UTF-8 byte 0xff"⟩ : ScanRes)]).getLast? =
         some last ∧ last.tok = Tok.ILLEGAL ∧ last.val ≠ "") :=
  ⟨claim_C8.1 [38, 97] (newLexer [38, 97]) Reachable.base 8
     ⟨[38, 97], 2, 97, "", ⟨1, 2⟩, ⟨1, 3⟩, false, Tok.ILLEGAL⟩
     ⟨⟨1, 2⟩, Tok.ILLEGAL, "unexpected 'a' after '&'"⟩ rfl,
   claim_C8.2 [255] 3 [⟨⟨1, 1⟩, Tok.ILLEGAL, "invalid UTF-8 byte 0xff"⟩]
     rfl rfl⟩

/-- C9: every position returned by `Scan` or `ScanRegex` from any reachable
lexer state has `Line ≥ 1` and `Column ≥ 1`, including the positions
produced by `ScanRegex`'s column rewind after a `DIV` or `DIV_ASSIGN`
token. -/
theorem claim_C9 :
    ∀ (bs : List Nat) (l : Lexer), Reachable bs l →
      ∀ (fuel : Nat) (l' : Lexer) (r : ScanRes),
        (ScanF fuel l = some (l', r) ∨ ScanRegexF fuel l = some (l', r)) →
        1 ≤ r.pos.Line ∧ 1 ≤ r.pos.Column := by
  intro bs l hr fuel l' r h
  rcases h with h | h
  · exact (ScanF_main h (reachable_inv hr).1).2.2.2.2.2.1
  · exact (ScanRegexF_main h (reachable_inv hr).1).2.2.2

/-- C9 witness: the `REGEX` token produced on `/a/` after the `DIV` rewind
sits at line 1, column 1. -/
theorem claim_C9_witness :
    1 ≤ (⟨⟨1, 1⟩, Tok.REGEX, "a"⟩ : ScanRes).pos.Line ∧
    1 ≤ (⟨⟨1, 1⟩, Tok.REGEX, "a"⟩ : ScanRes).pos.Column :=
  claim_C9 [47, 97, 47]
    ⟨[47, 97, 47], 2, 97, "", ⟨1, 2⟩, ⟨1, 3⟩, false, Tok.DIV⟩
    (Reachable.scan Reachable.base
      (show ScanF 4 (newLexer [47, 97, 47]) =
          some (⟨[47, 97, 47], 2, 97, "", ⟨1, 2⟩, ⟨1, 3⟩, false, Tok.DIV⟩,
            ⟨⟨1, 1⟩, Tok.DIV, ""⟩) from rfl))
    8 ⟨[47, 97, 47], 3, -1, "", ⟨1, 4⟩, ⟨1, 4⟩, false, Tok.REGEX⟩
    ⟨⟨1, 1⟩, Tok.REGEX, "a"⟩ (Or.inr rfl)

/-- C10: a single quote dispatches `scan` to the same string loop as a
double quote (so the escape rules coincide by construction); the loop
terminates exactly on the matching quote, consuming it and returning a
`STRING` token; inside a single-quoted literal a double quote is an
ordinary character, and inside a double-quoted literal a single quote is
an ordinary character. -/
theorem claim_C10 :
    (∀ (fuel : Nat) (pos : Position) (l : Lexer),
       scanSwitch fuel pos 39 l = scanStr 39 fuel [] l pos) ∧
    (∀ (fuel : Nat) (pos : Position) (l : Lexer),
       scanSwitch fuel pos 34 l = scanStr 34 fuel [] l pos) ∧
    (∀ (fuel : Nat) (rs : List Int) (l : Lexer) (pos : Position),
       l.ch = 39 →
       scanStr 39 fuel rs l pos =
         some (next l, ⟨pos, Tok.STRING, runesToString rs⟩)) ∧
    (∀ (fuel : Nat) (rs : List Int) (l : Lexer) (pos : Position),
       l.ch = 34 →
       scanStr 39 (fuel + 1) rs l pos =
         scanStr 39 fuel (rs ++ [34]) (next l) pos) ∧
    (∀ (fuel : Nat) (rs : List Int) (l : Lexer) (pos : Position),
       l.ch = 39 →
       scanStr 34 (fuel + 1) rs l pos =
         scanStr 34 fuel (rs ++ [39]) (next l) pos) ∧
    (∀ (fuel : Nat) (rs : List Int) (l : Lexer) (pos : Position),
       l.ch = 92 →
       scanStr 39 (fuel + 1) rs l pos =
         scanStr 39 fuel
           (rs ++ [if (next l).ch = 116 then 9
                   else if (next l).ch = 114 then 13
                   else if (next l).ch = 110 then 10
                   else (next l).ch]) (next (next l)) pos) := by
  refine ⟨?_, ?_, ?_, ?_, ?_, ?_⟩
  · intro fuel pos l
    exact scanSwitch_string (Or.inr rfl)
  · intro fuel pos l
    exact scanSwitch_string (Or.inl rfl)
  · intro fuel rs l pos h
    exact scanStr_close h
  · intro fuel rs l pos h
    rw [scanStr_plain (by rw [h]; decide) (by rw [h]; decide)
        (by rw [h]; decide) (by rw [h]; decide), h]
  · intro fuel rs l pos h
    rw [scanStr_plain (by rw [h]; decide) (by rw [h]; decide)
        (by rw [h]; decide) (by rw [h]; decide), h]
  · intro fuel rs l pos h
    exact scanStr_esc (by rw [h]; decide) (by rw [h]; decide)
      (by rw [h]; decide) h

/-- C10 witness: concrete instances — single-quote dispatch, closing on a
single quote, a double quote kept verbatim inside a single-quoted literal,
and a single quote kept verbatim inside a double-quoted literal. -/
theorem claim_C10_witness :
    (scanSwitch 8 ⟨1, 1⟩ 39 (newLexer [97]) =
       scanStr 39 8 [] (newLexer [97]) ⟨1, 1⟩) ∧
    (scanStr 39 3 [] ⟨[], 0, 39, "", ⟨1, 2⟩, ⟨1, 2⟩, false, Tok.ILLEGAL⟩ ⟨1, 1⟩ =
       some (next ⟨[], 0, 39, "", ⟨1, 2⟩, ⟨1, 2⟩, false, Tok.ILLEGAL⟩,
         ⟨⟨1, 1⟩, Tok.STRING, runesToString []⟩)) ∧
    (scanStr 39 3 [] ⟨[], 0, 34, "", ⟨1, 2⟩, ⟨1, 2⟩, false, Tok.ILLEGAL⟩ ⟨1, 1⟩ =
       scanStr 39 2 [34]
         (next ⟨[], 0, 34, "", ⟨1, 2⟩, ⟨1, 2⟩, false, Tok.ILLEGAL⟩) ⟨1, 1⟩) ∧
    (scanStr 34 3 [] ⟨[], 0, 39, "", ⟨1, 2⟩, ⟨1, 2⟩, false, Tok.ILLEGAL⟩ ⟨1, 1⟩ =
       scanStr 34 2 [39]
         (next ⟨[], 0, 39, "", ⟨1, 2⟩, ⟨1, 2⟩, false, Tok.ILLEGAL⟩) ⟨1, 1⟩) :=
  ⟨claim_C10.1 8 ⟨1, 1⟩ (newLexer [97]),
   claim_C10.2.2.1 3 [] ⟨[], 0, 39, "", ⟨1, 2⟩, ⟨1, 2⟩, false, Tok.ILLEGAL⟩
     ⟨1, 1⟩ rfl,
   claim_C10.2.2.2.1 2 [] ⟨[], 0, 34, "", ⟨1, 2⟩, ⟨1, 2⟩, false, Tok.ILLEGAL⟩
     ⟨1, 1⟩ rfl,
   claim_C10.2.2.2.2.1 2 [] ⟨[], 0, 39, "", ⟨1, 2⟩, ⟨1, 2⟩, false, Tok.ILLEGAL⟩
     ⟨1, 1⟩ rfl⟩

end GoAWK
